import Mathlib

/-!
# Formal model of the `code-review-agent` backend

A shallow embedding, in Lean 4, of the parts of the repository's Python
backend that the specification's claims are about:

* `backend/graph/nodes/llm_experts.py` — the experts model/tools self-loop
  (`experts_model_node`, `experts_tools_node`);
* `backend/graph/memory/semantic_cache.py` — `LocalEmbedder.embed`, `cosine`,
  `MemorySemanticCache.get/set`, `RedisSemanticCache.set`;
* `backend/app/core/memory.py` — `ConversationMemory` (`_append`,
  `append_user`, `append_assistant_if_new`, `last_message`, `last_assistant`);
* `backend/app/api/explain.py` — the SSE `event_stream` bridge
  (`_too_similar`, the paragraph dedup pipeline, the fallback `invoke` paths,
  and the terminal `:::progress: 100` marker);
* `backend/graph/nodes/collector.py` — `collector_node` and its formatters.

Modelling conventions:

* Python `float` arithmetic is modelled over `ℚ` (every IEEE double is a
  rational; rounding slop is ignored).  `math.sqrt` is an opaque parameter
  `sqrt : ℚ → ℚ` wherever the source calls it: the claims under study never
  depend on the numeric value of a square root.
* Python `hash` (process-randomised) and wall-clock time are opaque
  parameters.
* Python's `str.strip()` is modelled character-wise (`pyStrip`), and
  `str.lower()` as character-wise lowercasing.
* Formatted keys such as `f"{hash(q)}:{int(time)}"` are modelled by the pair
  they encode (the encoding is injective, the colon being a separator that
  occurs in neither component).
-/

namespace CodeReviewAgent

/-! ## Python `str.strip`, modelled character-wise -/

/-- Whitespace test used by the model of Python's `str.strip()`. -/
def pySpace (c : Char) : Bool := c.isWhitespace

/-- Python `str.strip()` on the character list: drop leading and trailing
whitespace. -/
def stripChars (l : List Char) : List Char :=
  (l.dropWhile pySpace).rdropWhile pySpace

/-- Model of Python's `str.strip()`. -/
def pyStrip (s : String) : String := ⟨stripChars s.data⟩

theorem stripChars_nil : stripChars [] = [] := rfl

/-- A prefix of a `dropWhile`-fixed list is itself `dropWhile`-fixed. -/
theorem dropWhile_eq_self_of_front {p : Char → Bool} {a b : List Char}
    (hpre : b <+: a) (ha : a.dropWhile p = a) : b.dropWhile p = b := by
  rw [List.dropWhile_eq_self_iff] at ha ⊢
  intro hb
  have hlen : 0 < a.length := lt_of_lt_of_le hb hpre.length_le
  have := ha hlen
  have hget : a.get ⟨0, hlen⟩ = b.get ⟨0, hb⟩ := by
    obtain ⟨t, rfl⟩ := hpre
    simp only [List.get_eq_getElem]
    exact List.getElem_append_left hb
  rwa [hget] at this

/-- Idempotence of `stripChars`. -/
theorem stripChars_idem (l : List Char) : stripChars (stripChars l) = stripChars l := by
  unfold stripChars
  have hA : (l.dropWhile pySpace).dropWhile pySpace = l.dropWhile pySpace :=
    List.dropWhile_idempotent pySpace l
  have hpre : ((l.dropWhile pySpace).rdropWhile pySpace) <+: l.dropWhile pySpace :=
    List.rdropWhile_prefix pySpace (l.dropWhile pySpace)
  rw [dropWhile_eq_self_of_front hpre hA]
  exact List.rdropWhile_idempotent pySpace (l.dropWhile pySpace)

/-- Idempotence of `pyStrip`. -/
theorem pyStrip_idem (s : String) : pyStrip (pyStrip s) = pyStrip s := by
  simp [pyStrip, stripChars_idem]

/-! ## C1 — the experts self-loop (`llm_experts.py`)

`experts_model_node` (lines 140–147) routes to `"tools"` only when the
assistant message carried tool calls *and* `experts_iterations < 2`;
otherwise it sets `experts_next = "finalize"`.  `experts_tools_node`
(lines 150–162) increments `experts_iterations` by exactly one.  The model
keeps the two state fields the routing reads and writes. -/

/-- The value `experts_model_node` stores in `state["experts_next"]`. -/
inductive ExpertsRoute where
  | tools
  | finalize
deriving DecidableEq, Repr

/-- The slice of the LangGraph state the experts self-loop reads and
writes: the `experts_iterations` counter. -/
structure ExpertsState where
  iterations : Nat
deriving DecidableEq, Repr

/-- Routing decision of `experts_model_node` (source lines 140–147):
`if has_tools and iter_count < 2: state["experts_next"] = "tools" else
"finalize"`.  `hasToolCalls` abstracts `getattr(ai, "tool_calls", None)`
being non-empty. -/
def expertsModelRoute (hasToolCalls : Bool) (s : ExpertsState) : ExpertsRoute :=
  if hasToolCalls ∧ s.iterations < 2 then .tools else .finalize

/-- Effect of `experts_tools_node` on the counter (source line 161):
`state["experts_iterations"] = int(state.get("experts_iterations", 0)) + 1`. -/
def expertsToolsNode (s : ExpertsState) : ExpertsState :=
  ⟨s.iterations + 1⟩

/-- The model node routes to `"tools"` exactly when the reply has tool calls
and the counter is still below the budget of 2. -/
theorem expertsModelRoute_eq_tools {b : Bool} {s : ExpertsState} :
    expertsModelRoute b s = .tools ↔ (b = true ∧ s.iterations < 2) := by
  unfold expertsModelRoute
  split <;> rename_i h <;> simp_all

/-- One round of the self-loop starting at a model node: consult the route;
on `tools`, run the tools node and loop back to the model node.  `oracle k`
abstracts whether the model's `k`-th reply in this session carries tool
calls.  Returns the number of times the tools node fired.  Terminates
because each tools firing increments `iterations`, which the route caps
at 2. -/
def expertsLoopFires (oracle : Nat → Bool) (round : Nat) (s : ExpertsState) : Nat :=
  if h : expertsModelRoute (oracle round) s = .tools then
    1 + expertsLoopFires oracle (round + 1) (expertsToolsNode s)
  else 0
termination_by 2 - s.iterations
decreasing_by
  have := (expertsModelRoute_eq_tools.mp h).2
  simp [expertsToolsNode]
  omega

/-- Fuel-indexed bound used to reason about `expertsLoopFires`. -/
theorem expertsLoopFires_le_aux (oracle : Nat → Bool) :
    ∀ n round s, 2 - s.iterations ≤ n →
      expertsLoopFires oracle round s ≤ 2 - s.iterations := by
  intro n
  induction n with
  | zero =>
    intro round s hs
    rw [expertsLoopFires]
    split
    · rename_i h
      have := (expertsModelRoute_eq_tools.mp h).2
      omega
    · omega
  | succ n ih =>
    intro round s hs
    rw [expertsLoopFires]
    split
    · rename_i h
      have hlt := (expertsModelRoute_eq_tools.mp h).2
      have := ih (round + 1) (expertsToolsNode s) (by simp [expertsToolsNode]; omega)
      simp only [expertsToolsNode] at this ⊢
      omega
    · omega

theorem expertsLoopFires_le (oracle : Nat → Bool) (round : Nat) (s : ExpertsState) :
    expertsLoopFires oracle round s ≤ 2 - s.iterations :=
  expertsLoopFires_le_aux oracle (2 - s.iterations) round s le_rfl

/-- Claim C1. The experts self-loop fires at most its iteration budget
(k = 2) times before the finalize branch is forced: for every oracle of
model replies, the tools node fires at most `2 - iterations` times (at most
2 from a fresh session); `experts_model_node` routes to `"tools"` only
while the counter is below the budget; `experts_tools_node` increments the
counter by exactly one; and once the counter reaches the budget the route
is `"finalize"` regardless of whether the model requested further tool
calls.  Termination itself is witnessed by `expertsLoopFires` being a total
function. -/
theorem C1_experts_self_loop_budget :
    (∀ (oracle : Nat → Bool) (s : ExpertsState),
        expertsLoopFires oracle 0 s ≤ 2 - s.iterations) ∧
    (∀ oracle : Nat → Bool, expertsLoopFires oracle 0 ⟨0⟩ ≤ 2) ∧
    (∀ (b : Bool) (s : ExpertsState),
        expertsModelRoute b s = .tools → b = true ∧ s.iterations < 2) ∧
    (∀ s : ExpertsState, (expertsToolsNode s).iterations = s.iterations + 1) ∧
    (∀ (b : Bool) (s : ExpertsState),
        2 ≤ s.iterations → expertsModelRoute b s = .finalize) := by
  refine ⟨fun o s => expertsLoopFires_le o 0 s,
    fun o => expertsLoopFires_le o 0 ⟨0⟩,
    fun b s h => expertsModelRoute_eq_tools.mp h,
    fun s => rfl, ?_⟩
  intro b s h
  unfold expertsModelRoute
  rw [if_neg]
  omega

/-- Witness for C1 at concrete inputs: an always-tool-calling oracle from a
fresh session stays within budget, the route at counter 2 is forced to
finalize even with tool calls requested, and the tools node bumps the
counter from 0 to 1. -/
theorem C1_experts_self_loop_budget_witness :
    expertsLoopFires (fun _ => true) 0 ⟨0⟩ ≤ 2 ∧
    expertsModelRoute true ⟨2⟩ = .finalize ∧
    (expertsToolsNode ⟨0⟩).iterations = 1 ∧
    (true = true ∧ (⟨0⟩ : ExpertsState).iterations < 2) :=
  ⟨C1_experts_self_loop_budget.2.1 _,
   C1_experts_self_loop_budget.2.2.2.2 true ⟨2⟩ (by decide),
   C1_experts_self_loop_budget.2.2.2.1 ⟨0⟩,
   C1_experts_self_loop_budget.2.2.1 true ⟨0⟩ (by decide)⟩

/-! ## The semantic cache (`semantic_cache.py`) — C3, C8, C9

Floats are modelled over `ℚ`; `math.sqrt` is an opaque `sqrt : ℚ → ℚ`
parameter (the claims never depend on its values); Python `hash` is an
opaque `String → Int` parameter; wall-clock time is passed in by the
caller.  A Python dict is modelled as its insertion-ordered association
list. -/

/-- Python's `str.lower()`, modelled character-wise. -/
def pyLower (s : String) : String := ⟨s.data.map Char.toLower⟩

/-- Model of `cosine` (source lines 69–75): `0.0` on empty or length-mismatched
inputs, otherwise `dot / ((sqrt (Σ x²) or 1) * (sqrt (Σ y²) or 1))`.
The Python `or 1.0` (replace a zero norm by `1.0`) becomes an `if`. -/
def cosine (sqrt : ℚ → ℚ) (a b : List ℚ) : ℚ :=
  if a = [] ∨ b = [] ∨ a.length ≠ b.length then 0
  else
    let dot := ((a.zip b).map fun p => p.1 * p.2).sum
    let ra := sqrt ((a.map fun x => x * x).sum)
    let rb := sqrt ((b.map fun y => y * y).sum)
    let na := if ra = 0 then 1 else ra
    let nb := if rb = 0 then 1 else rb
    dot / (na * nb)

/-- Model of `CacheItem` (source lines 95–100).  The dict key
`f"{hash(query)}:{int(time.time())}"` is modelled by the pair it encodes
(the colon-separated encoding is injective). -/
structure CacheItem (V : Type) where
  key : Int × Int
  embedding : List ℚ
  value : V
  ts : ℚ
deriving DecidableEq, Repr

/-- Python dict assignment `ns[key] = item`: replace in place if the key is
present (dicts keep the original insertion position), else append. -/
def dictSet {V : Type} (ns : List (CacheItem V)) (it : CacheItem V) : List (CacheItem V) :=
  if ns.any fun x => x.key = it.key then
    ns.map fun x => if x.key = it.key then it else x
  else ns ++ [it]

/-- Model of `MemorySemanticCache.get` (source lines 113–126): scan the namespace
for the best cosine score (strictly improving, seeded with `(None, 0.0)`),
then return the value only if a best key exists and its score is at least
`min_score`. -/
def memGet {V : Type} (sqrt : ℚ → ℚ) (emb : String → List ℚ)
    (ns : List (CacheItem V)) (query : String) (minScore : ℚ) : Option (ℚ × V) :=
  if ns.isEmpty then none
  else
    let qv := emb query
    let best := ns.foldl
      (fun (b : Option (Int × Int) × ℚ) item =>
        let s := cosine sqrt qv item.embedding
        if b.2 < s then (some item.key, s) else b)
      (none, 0)
    match best.1 with
    | none => none
    | some k =>
      if best.2 < minScore then none
      else
        match ns.find? fun x => x.key = k with
        | some item => some (best.2, item.value)
        | none => none

/-- Model of `MemorySemanticCache.set` (source lines 128–138): insert the item under
the hash/time key, then, if the namespace holds more than 512 entries,
remove the 64 entries that are oldest by timestamp (`sorted(...)[:64]`,
stable sort) via `ns.pop(it.key, None)` for each. -/
def memSet {V : Type} (emb : String → List ℚ) (hash : String → Int)
    (ns : List (CacheItem V)) (query : String) (v : V) (now : ℚ) : List (CacheItem V) :=
  let key : Int × Int := (hash query, ⌊now⌋)
  let ns' := dictSet ns ⟨key, emb query, v, now⟩
  if 512 < ns'.length then
    let oldest := (ns'.mergeSort fun x y => decide (x.ts ≤ y.ts)).take 64
    oldest.foldl (fun acc it => acc.eraseP fun x => decide (x.key = it.key)) ns'
  else ns'

/-- The per-namespace Redis state touched by `RedisSemanticCache.set`: the
`sc:{ns}:keys` membership set (insertion-ordered) and the hashes stored
under `sc:{ns}:{id}`.  Item ids `f"{abs(hash(query))}:{int(time)}"` are
modelled by the encoded pair. -/
structure RedisNs (V : Type) where
  keys : List (Nat × Int)
  items : List ((Nat × Int) × (List ℚ × V))
deriving Repr

/-- Model of `RedisSemanticCache.set` (source lines 192–206): `hset` the embedding
and value under the item key (overwriting any previous hash at that key),
then `sadd` the item id to the namespace key set.  No eviction of any
kind is performed. -/
def redisSet {V : Type} (emb : String → List ℚ) (hash : String → Int)
    (st : RedisNs V) (query : String) (v : V) (now : Int) : RedisNs V :=
  let itemId : Nat × Int := ((hash query).natAbs, now)
  let payload := (emb query, v)
  let items' :=
    if st.items.any fun p => p.1 = itemId then
      st.items.map fun p => if p.1 = itemId then (itemId, payload) else p
    else st.items ++ [(itemId, payload)]
  let keys' := if itemId ∈ st.keys then st.keys else st.keys ++ [itemId]
  ⟨keys', items'⟩

/-- Model of `LocalEmbedder.embed` (source lines 41–52): lowercase, return the zero
vector for inputs shorter than 3 characters, otherwise count hashed
character trigrams into `dims` buckets and L2-normalise (`or 1.0` guarding
a zero norm). -/
def localEmbed (hash : String → Int) (dims : Nat) (sqrt : ℚ → ℚ) (text : String) : List ℚ :=
  let cs := (pyLower text).data
  if cs.length < 3 then List.replicate dims 0
  else
    let vec := (List.range (cs.length - 2)).foldl
      (fun (v : List ℚ) i =>
        let tri : String := ⟨(cs.drop i).take 3⟩
        let h := ((hash tri) % (dims : Int)).toNat
        v.set h (v.getD h 0 + 1))
      (List.replicate dims 0)
    let r := sqrt ((vec.map fun x => x * x).sum)
    let norm := if r = 0 then 1 else r
    vec.map fun x => x / norm

/-! ### Behaviour of `get` on a freshly-set singleton namespace (C3) -/

/-- One `set` on an empty namespace stores exactly one item. -/
theorem memSet_nil {V : Type} (emb : String → List ℚ) (hash : String → Int)
    (q : String) (v : V) (now : ℚ) :
    memSet emb hash [] q v now = [⟨(hash q, ⌊now⌋), emb q, v, now⟩] := by
  simp [memSet, dictSet]

/-- Evaluation of `get` over a one-item namespace: the best score is the
cosine of the query against the stored embedding, provided it beats the
`(None, 0.0)` seed strictly. -/
theorem memGet_singleton {V : Type} (sqrt : ℚ → ℚ) (emb : String → List ℚ)
    (it : CacheItem V) (q : String) (m : ℚ) :
    memGet sqrt emb [it] q m =
      if 0 < cosine sqrt (emb q) it.embedding ∧ ¬ cosine sqrt (emb q) it.embedding < m then
        some (cosine sqrt (emb q) it.embedding, it.value)
      else none := by
  by_cases h0 : (0:ℚ) < cosine sqrt (emb q) it.embedding
  · by_cases hm : cosine sqrt (emb q) it.embedding < m
    · rw [if_neg (by rintro ⟨-, h⟩; exact h hm)]
      simp [memGet, h0, hm]
    · rw [if_pos ⟨h0, hm⟩]
      simp [memGet, h0, hm, List.find?]
  · rw [if_neg (by rintro ⟨h, -⟩; exact h0 h)]
    simp [memGet, h0]

/-- Claim C3, amended. For a *positive* threshold `min_score`: storing `v`
under `q1` in an empty namespace and then querying `q2` returns `v` with a
score at least `min_score` whenever the cosine similarity of the two
embeddings is at least `min_score`; and for similarity strictly below
`min_score` the lookup is a Miss (`none`), for every threshold.  (The
original claim, quantifying over every `min_score`, fails at
`min_score ≤ 0` because the best-match scan only improves strictly on its
`(None, 0.0)` seed — see the counterexample.) -/
theorem C3_semantic_cache_hit_and_miss (V : Type) (sqrt : ℚ → ℚ)
    (emb : String → List ℚ) (hash : String → Int) (q1 q2 : String) (v : V)
    (now minScore : ℚ) :
    (0 < minScore → minScore ≤ cosine sqrt (emb q2) (emb q1) →
      memGet sqrt emb (memSet emb hash [] q1 v now) q2 minScore =
        some (cosine sqrt (emb q2) (emb q1), v) ∧
      minScore ≤ cosine sqrt (emb q2) (emb q1)) ∧
    (cosine sqrt (emb q2) (emb q1) < minScore →
      memGet sqrt emb (memSet emb hash [] q1 v now) q2 minScore = none) := by
  rw [memSet_nil, memGet_singleton]
  constructor
  · intro hpos hsim
    rw [if_pos ⟨lt_of_lt_of_le hpos hsim, not_lt.mpr hsim⟩]
    exact ⟨rfl, hsim⟩
  · intro hmiss
    rw [if_neg]
    rintro ⟨-, hge⟩
    exact hge hmiss

/-- Concrete ingredients for the C3 witness and counterexample: a trivial
square root, an embedder sending `"a"` to `(1,0)` and everything else to
`(0,1)`, and a constant hash. -/
def sqrtOne : ℚ → ℚ := fun _ => 1

def embTwo : String → List ℚ := fun s => if s = "a" then [1, 0] else [0, 1]

def hashZero : String → Int := fun _ => 0

theorem embTwo_a : embTwo "a" = [1, 0] := rfl

theorem embTwo_b : embTwo "b" = [0, 1] := rfl

/-- The two concrete embeddings are orthogonal: cosine similarity `0`. -/
theorem cosine_embTwo : cosine sqrtOne (embTwo "b") (embTwo "a") = 0 := by
  rw [embTwo_a, embTwo_b]
  unfold cosine
  rw [if_neg (by simp)]
  simp [sqrtOne, List.zip]

/-- Identical embeddings have cosine similarity `1` under `sqrtOne`. -/
theorem cosine_embTwo_self : cosine sqrtOne (embTwo "a") (embTwo "a") = 1 := by
  rw [embTwo_a]
  unfold cosine
  rw [if_neg (by simp)]
  norm_num [sqrtOne, List.zip]

/-- Witness for C3: with `min_score = 1/2`, setting `"a"` and getting
`"a"` (similarity `1 ≥ 1/2`) hits with score `1`, while getting `"b"`
(similarity `0 < 1/2`) misses. -/
theorem C3_semantic_cache_hit_and_miss_witness :
    memGet sqrtOne embTwo (memSet embTwo hashZero ([] : List (CacheItem Nat)) "a" 42 0)
        "a" (1/2) = some (1, 42) ∧
    memGet sqrtOne embTwo (memSet embTwo hashZero ([] : List (CacheItem Nat)) "a" 42 0)
        "b" (1/2) = none := by
  constructor
  · have h := (C3_semantic_cache_hit_and_miss Nat sqrtOne embTwo hashZero "a" "a" 42 0
      (1/2)).1 (by norm_num) (by rw [cosine_embTwo_self]; norm_num)
    rw [h.1, cosine_embTwo_self]
  · exact (C3_semantic_cache_hit_and_miss Nat sqrtOne embTwo hashZero "a" "b" 42 0
      (1/2)).2 (by rw [cosine_embTwo]; norm_num)

/-- Counterexample to claim C3. At `min_score = 0` the claim as stated fails:
the embeddings of `"a"` and `"b"` have cosine similarity `0 ≥ min_score`,
yet `get` after `set` returns a Miss, because the best-match scan keeps a
candidate only when its score strictly exceeds the `0.0` seed. -/
theorem C3_counterexample_zero_threshold :
    cosine sqrtOne (embTwo "b") (embTwo "a") ≥ (0:ℚ) ∧
    memGet sqrtOne embTwo (memSet embTwo hashZero ([] : List (CacheItem Nat)) "a" 42 0)
        "b" 0 = none := by
  constructor
  · rw [cosine_embTwo]
  · rw [memSet_nil, memGet_singleton, if_neg]
    rintro ⟨h0, -⟩
    rw [cosine_embTwo] at h0
    exact lt_irrefl 0 h0

/-! ### The local embedder on short inputs (C9) -/

/-- A zero vector dotted against anything sums to zero. -/
theorem zip_replicate_zero_sum (d : Nat) :
    ∀ b : List ℚ, (((List.replicate d (0:ℚ)).zip b).map fun p => p.1 * p.2).sum = 0 := by
  induction d with
  | zero => intro b; simp
  | succ n ih =>
    intro b
    cases b with
    | nil => simp
    | cons y ys => simp [List.replicate_succ, ih ys]

/-- Cosine of the zero vector against any vector is `0`, whatever `sqrt`
does: the dot product vanishes and `0 / x = 0`. -/
theorem cosine_replicate_zero (sqrt : ℚ → ℚ) (d : Nat) (b : List ℚ) :
    cosine sqrt (List.replicate d 0) b = 0 := by
  unfold cosine
  split
  · rfl
  · simp [zip_replicate_zero_sum]

/-- The best-match scan never leaves its `(None, 0.0)` seed when every
stored embedding scores non-positively against the query vector. -/
theorem bestScan_none {V : Type} (sqrt : ℚ → ℚ) (qv : List ℚ) :
    ∀ ns : List (CacheItem V),
      (∀ it ∈ ns, cosine sqrt qv it.embedding ≤ 0) →
      ns.foldl
        (fun (b : Option (Int × Int) × ℚ) item =>
          let s := cosine sqrt qv item.embedding
          if b.2 < s then (some item.key, s) else b)
        (none, 0) = (none, 0) := by
  intro ns
  induction ns with
  | nil => intro _; rfl
  | cons it its ih =>
    intro h
    have h0 : ¬ (0:ℚ) < cosine sqrt qv it.embedding :=
      not_lt.mpr (h it (List.mem_cons_self it its))
    simp only [List.foldl_cons, if_neg h0]
    exact ih fun x hx => h x (List.mem_cons_of_mem it hx)

/-- Lookup misses on every namespace when the query embeds to a vector
that scores `≤ 0` against every stored embedding. -/
theorem memGet_none_of_nonpos {V : Type} (sqrt : ℚ → ℚ) (emb : String → List ℚ)
    (ns : List (CacheItem V)) (q : String) (m : ℚ)
    (h : ∀ it ∈ ns, cosine sqrt (emb q) it.embedding ≤ 0) :
    memGet sqrt emb ns q m = none := by
  unfold memGet
  cases ns with
  | nil => rfl
  | cons it its =>
    simp only [List.isEmpty_cons, Bool.false_eq_true, if_false]
    rw [bestScan_none sqrt (emb q) (it :: its) h]

/-- Claim C9. With the local embedder, a query shorter than 3 characters
embeds to the all-zero vector; that vector has cosine similarity `0`
against every vector; hence, for every positive `min_score`, `get` on such
a query misses on every namespace — in particular immediately after
`set` of the exact same query in the same namespace.  (Holds for every
hash function, dimension, and square-root implementation.) -/
theorem C9_short_query_always_misses (V : Type) (hash hash2 : String → Int)
    (dims : Nat) (sqrt : ℚ → ℚ) (text : String) (hlen : text.length < 3) :
    localEmbed hash dims sqrt text = List.replicate dims 0 ∧
    (∀ b : List ℚ, cosine sqrt (localEmbed hash dims sqrt text) b = 0) ∧
    (∀ (ns : List (CacheItem V)) (minScore : ℚ), 0 < minScore →
      memGet sqrt (localEmbed hash dims sqrt) ns text minScore = none) ∧
    (∀ (ns : List (CacheItem V)) (v : V) (now minScore : ℚ), 0 < minScore →
      memGet sqrt (localEmbed hash dims sqrt)
        (memSet (localEmbed hash dims sqrt) hash2 ns text v now) text minScore = none) := by
  have hzero : localEmbed hash dims sqrt text = List.replicate dims 0 := by
    unfold localEmbed
    rw [if_pos]
    have hd : (pyLower text).data.length = text.data.length := by
      simp [pyLower]
    rw [hd]
    exact hlen
  have hcos : ∀ b : List ℚ, cosine sqrt (localEmbed hash dims sqrt text) b = 0 := by
    intro b; rw [hzero]; exact cosine_replicate_zero sqrt dims b
  have hget : ∀ (ns : List (CacheItem V)) (minScore : ℚ), 0 < minScore →
      memGet sqrt (localEmbed hash dims sqrt) ns text minScore = none := by
    intro ns minScore _
    exact memGet_none_of_nonpos sqrt _ ns text minScore fun it _ => le_of_eq (hcos it.embedding)
  exact ⟨hzero, hcos, hget, fun ns v now minScore hm => hget _ minScore hm⟩

/-- Witness for C9 at the concrete query `"ab"` (length 2), dimension 4,
after `set` of `"ab"` itself: `get` misses at `min_score = 1/2`. -/
theorem C9_short_query_always_misses_witness :
    localEmbed hashZero 4 sqrtOne "ab" = [0, 0, 0, 0] ∧
    memGet sqrtOne (localEmbed hashZero 4 sqrtOne)
      (memSet (localEmbed hashZero 4 sqrtOne) hashZero ([] : List (CacheItem Nat)) "ab" 7 0)
      "ab" (1/2) = none := by
  have h := C9_short_query_always_misses Nat hashZero hashZero 4 sqrtOne "ab" (by decide)
  exact ⟨by rw [h.1]; rfl, h.2.2.2 [] 7 0 (1/2) (by norm_num)⟩

/-! ### Capacity and eviction (C8) -/

/-- The keys of a namespace, in storage order. -/
def keysOf {V : Type} (ns : List (CacheItem V)) : List (Int × Int) :=
  ns.map fun x => x.key

/-- The dict invariant: keys are pairwise distinct. -/
def nodupKeys {V : Type} (ns : List (CacheItem V)) : Prop :=
  (keysOf ns).Nodup

/-- A sequence of `MemorySemanticCache.set` operations
(query, value, timestamp) applied in order to one namespace. -/
def memSetMany {V : Type} (emb : String → List ℚ) (hash : String → Int)
    (ops : List (String × V × ℚ)) (ns : List (CacheItem V)) : List (CacheItem V) :=
  ops.foldl (fun acc op => memSet emb hash acc op.1 op.2.1 op.2.2) ns

theorem dictSet_length {V : Type} (ns : List (CacheItem V)) (it : CacheItem V) :
    (dictSet ns it).length = if ns.any fun x => x.key = it.key then ns.length
      else ns.length + 1 := by
  unfold dictSet
  split <;> simp

theorem keysOf_dictSet_of_replace {V : Type} {ns : List (CacheItem V)} {it : CacheItem V}
    (h : ns.any fun x => x.key = it.key) : keysOf (dictSet ns it) = keysOf ns := by
  unfold dictSet keysOf
  rw [if_pos h, List.map_map]
  apply List.map_congr_left
  intro x _
  by_cases hx : x.key = it.key <;> simp [hx]

theorem nodupKeys_dictSet {V : Type} {ns : List (CacheItem V)} (it : CacheItem V)
    (h : nodupKeys ns) : nodupKeys (dictSet ns it) := by
  by_cases hmem : ns.any fun x => x.key = it.key
  · unfold nodupKeys
    rw [keysOf_dictSet_of_replace hmem]
    exact h
  · unfold nodupKeys dictSet
    rw [if_neg hmem]
    unfold keysOf
    rw [List.map_append]
    refine List.Nodup.append h (List.nodup_singleton _) ?_
    intro k hk hk1
    simp only [List.map_cons, List.map_nil, List.mem_singleton] at hk1
    subst hk1
    simp only [List.any_eq_true, decide_eq_true_eq] at hmem
    obtain ⟨x, hx, hxk⟩ := List.mem_map.mp hk
    exact hmem ⟨x, hx, hxk⟩

/-- Erasing by key (`eraseP`) equals filtering that key away, on a
distinct-key list (at most one entry can match). -/
theorem eraseP_key_eq_filter {V : Type} (k : Int × Int) :
    ∀ l : List (CacheItem V), nodupKeys l →
      l.eraseP (fun x => decide (x.key = k)) = l.filter fun x => !decide (x.key = k) := by
  intro l
  induction l with
  | nil => intro _; rfl
  | cons x xs ih =>
    intro h
    have hx : nodupKeys xs := (List.nodup_cons.mp h).2
    by_cases hk : x.key = k
    · rw [List.eraseP_cons_of_pos (by simp [hk]), List.filter_cons_of_neg (by simp [hk])]
      symm
      apply List.filter_eq_self.mpr
      intro y hy
      simp only [Bool.not_eq_true', decide_eq_false_iff_not]
      intro hyk
      apply (List.nodup_cons.mp h).1
      have hmem : y.key ∈ keysOf xs := List.mem_map_of_mem (fun z => z.key) hy
      rwa [hyk, ← hk] at hmem
    · rw [List.eraseP_cons_of_neg (by simp [hk]), List.filter_cons_of_pos (by simp [hk])]
      rw [ih hx]

theorem nodupKeys_filter {V : Type} (p : CacheItem V → Bool) {l : List (CacheItem V)}
    (h : nodupKeys l) : nodupKeys (l.filter p) :=
  List.Nodup.sublist (List.Sublist.map _ (List.filter_sublist l)) h

/-- Folding `eraseP`-by-key over a removal list equals a single `filter`
on a distinct-key namespace: the eviction loop is a bulk removal. -/
theorem foldl_eraseP_eq_filter {V : Type} :
    ∀ (rem cur : List (CacheItem V)), nodupKeys cur →
      rem.foldl (fun acc it => acc.eraseP fun x => decide (x.key = it.key)) cur =
        cur.filter fun x => !rem.any fun r => decide (x.key = r.key) := by
  intro rem
  induction rem with
  | nil =>
    intro cur _
    simp
  | cons r rs ih =>
    intro cur h
    simp only [List.foldl_cons]
    rw [eraseP_key_eq_filter r.key cur h,
        ih _ (nodupKeys_filter _ h), List.filter_filter]
    apply List.filter_congr
    intro x _
    simp only [List.any_cons, Bool.not_or]
    rw [Bool.and_comm]

/-- The comparison key of the eviction sort: `key=lambda x: x.ts`. -/
def tsLe {V : Type} (x y : CacheItem V) : Bool := decide (x.ts ≤ y.ts)

theorem tsLe_trans {V : Type} (a b c : CacheItem V) :
    tsLe a b → tsLe b c → tsLe a c := by
  unfold tsLe
  intro h1 h2
  simp only [decide_eq_true_eq] at *
  exact le_trans h1 h2

theorem tsLe_total {V : Type} (a b : CacheItem V) : tsLe a b || tsLe b a := by
  unfold tsLe
  rcases le_total a.ts b.ts with h | h <;> simp [h]

/-- Membership predicate of the eviction batch, by key. -/
def evictedBy {V : Type} (oldest : List (CacheItem V)) (x : CacheItem V) : Bool :=
  oldest.any fun r => decide (x.key = r.key)

/-- On a distinct-key namespace the eviction loop of `memSet` is a single
bulk filter: it removes precisely the entries whose key is among the 64
oldest-by-timestamp entries. -/
theorem memSet_overflow_eq_filter {V : Type} (emb : String → List ℚ)
    (hash : String → Int) (ns : List (CacheItem V)) (q : String) (v : V) (now : ℚ)
    (hnd : nodupKeys (dictSet ns ⟨(hash q, ⌊now⌋), emb q, v, now⟩))
    (hover : 512 < (dictSet ns ⟨(hash q, ⌊now⌋), emb q, v, now⟩).length) :
    memSet emb hash ns q v now =
      (dictSet ns ⟨(hash q, ⌊now⌋), emb q, v, now⟩).filter fun x =>
        !evictedBy (((dictSet ns ⟨(hash q, ⌊now⌋), emb q, v, now⟩).mergeSort tsLe).take 64) x := by
  unfold memSet
  rw [if_pos hover]
  exact foldl_eraseP_eq_filter _ _ hnd

/-- Every entry of the eviction batch satisfies `evictedBy`. -/
theorem evictedBy_of_mem {V : Type} {oldest : List (CacheItem V)} {x : CacheItem V}
    (h : x ∈ oldest) : evictedBy oldest x := by
  unfold evictedBy
  rw [List.any_eq_true]
  exact ⟨x, h, by simp⟩

/-- Counting and ordering facts about the bulk filter: on a distinct-key
list of length at least 64, filtering away the keys of the 64
oldest-by-timestamp entries removes exactly 64 entries, and every removed
entry is at least as old as every surviving entry. -/
theorem evict_filter_facts {V : Type} (cur : List (CacheItem V))
    (hnd : nodupKeys cur) (hlen64 : 64 <= cur.length) :
    ((cur.filter fun x => !evictedBy ((cur.mergeSort tsLe).take 64) x).length =
      cur.length - 64) ∧
    (∀ x ∈ cur.filter fun x => !evictedBy ((cur.mergeSort tsLe).take 64) x,
      ∀ y ∈ cur,
        (y ∉ cur.filter fun x => !evictedBy ((cur.mergeSort tsLe).take 64) x) →
        y.ts ≤ x.ts) := by
  have hperm : List.Perm (cur.mergeSort tsLe) cur := List.mergeSort_perm cur tsLe
  have htd : (cur.mergeSort tsLe).take 64 ++ (cur.mergeSort tsLe).drop 64 =
      cur.mergeSort tsLe := List.take_append_drop 64 (cur.mergeSort tsLe)
  have hlen_sorted : (cur.mergeSort tsLe).length = cur.length := hperm.length_eq
  have hoLen : ((cur.mergeSort tsLe).take 64).length = 64 := by
    rw [List.length_take, hlen_sorted]
    omega
  have hkeys_sorted : ((cur.mergeSort tsLe).map fun x => x.key).Nodup := by
    have hp : List.Perm ((cur.mergeSort tsLe).map fun x => x.key)
        (cur.map fun x => x.key) := hperm.map fun x => x.key
    exact hp.nodup_iff.mpr hnd
  have hdisj : List.Disjoint (((cur.mergeSort tsLe).take 64).map fun x => x.key)
      (((cur.mergeSort tsLe).drop 64).map fun x => x.key) := by
    apply List.disjoint_of_nodup_append
    rw [← List.map_append, htd]
    exact hkeys_sorted
  have hcount_rest :
      ((cur.mergeSort tsLe).drop 64).countP (evictedBy ((cur.mergeSort tsLe).take 64)) = 0 := by
    rw [List.countP_eq_zero]
    intro a ha hcon
    unfold evictedBy at hcon
    rw [List.any_eq_true] at hcon
    obtain ⟨r, hr, hrk⟩ := hcon
    simp only [decide_eq_true_eq] at hrk
    exact hdisj (List.mem_map_of_mem (fun z => z.key) hr)
      (hrk ▸ List.mem_map_of_mem (fun z => z.key) ha)
  have hcount_oldest :
      ((cur.mergeSort tsLe).take 64).countP (evictedBy ((cur.mergeSort tsLe).take 64)) = 64 := by
    have h0 : ((cur.mergeSort tsLe).take 64).countP (evictedBy ((cur.mergeSort tsLe).take 64)) =
        ((cur.mergeSort tsLe).take 64).length :=
      List.countP_eq_length.mpr fun a ha => evictedBy_of_mem ha
    rw [h0, hoLen]
  have hcount : cur.countP (evictedBy ((cur.mergeSort tsLe).take 64)) = 64 := by
    have h1 := hperm.countP_eq (evictedBy ((cur.mergeSort tsLe).take 64))
    have h2 := List.countP_append
      (p := evictedBy ((cur.mergeSort tsLe).take 64))
      ((cur.mergeSort tsLe).take 64) ((cur.mergeSort tsLe).drop 64)
    rw [htd] at h2
    omega
  constructor
  · have h2 : (cur.filter fun x => !evictedBy ((cur.mergeSort tsLe).take 64) x).length =
        cur.countP fun x => !evictedBy ((cur.mergeSort tsLe).take 64) x :=
      (List.countP_eq_length_filter _ _).symm
    have h3 := List.length_eq_countP_add_countP
      (p := evictedBy ((cur.mergeSort tsLe).take 64)) (l := cur)
    have h4 : (cur.countP fun x => !evictedBy ((cur.mergeSort tsLe).take 64) x) =
        cur.countP fun a => ¬ evictedBy ((cur.mergeSort tsLe).take 64) a := by
      apply List.countP_congr
      intro a _
      simp
    rw [h2, h4]
    omega
  · intro x hx y hy hyn
    have hpy : evictedBy ((cur.mergeSort tsLe).take 64) y := by
      by_contra hnp
      exact hyn (List.mem_filter.mpr ⟨hy, by simp [hnp]⟩)
    have hxf := List.mem_filter.mp hx
    have hnx : ¬ evictedBy ((cur.mergeSort tsLe).take 64) x = true := by
      have hbx := hxf.2
      simp only [Bool.not_eq_true'] at hbx
      simp [hbx]
    unfold evictedBy at hpy
    rw [List.any_eq_true] at hpy
    obtain ⟨r, hr, hrk⟩ := hpy
    simp only [decide_eq_true_eq] at hrk
    have hr_ns : r ∈ cur := hperm.mem_iff.mp (htd ▸ List.mem_append_left _ hr)
    have hyr : y = r := List.inj_on_of_nodup_map hnd hy hr_ns hrk
    have hx_sorted : x ∈ cur.mergeSort tsLe := hperm.mem_iff.mpr hxf.1
    have hx_rest : x ∈ (cur.mergeSort tsLe).drop 64 := by
      rcases List.mem_append.mp (htd ▸ hx_sorted) with hxo | hxr
      · exact absurd (evictedBy_of_mem hxo) hnx
      · exact hxr
    have hsortedP : (cur.mergeSort tsLe).Pairwise (fun a b => tsLe a b = true) :=
      List.sorted_mergeSort tsLe_trans tsLe_total cur
    have hpa := (List.pairwise_append.mp (htd ▸ hsortedP)).2.2
    have hts : tsLe r x := hpa r hr x hx_rest
    rw [hyr]
    simpa [tsLe] using hts

/-- Core facts about the overflow branch of `memSet`, instantiating
`evict_filter_facts`: exactly 64 entries are removed, and every removed
entry is at least as old (by `ts`) as every surviving entry. -/
theorem memSet_overflow_facts {V : Type} (emb : String → List ℚ)
    (hash : String → Int) (ns : List (CacheItem V)) (q : String) (v : V) (now : ℚ)
    (hnd : nodupKeys (dictSet ns ⟨(hash q, ⌊now⌋), emb q, v, now⟩))
    (hover : 512 < (dictSet ns ⟨(hash q, ⌊now⌋), emb q, v, now⟩).length) :
    (memSet emb hash ns q v now).length =
      (dictSet ns ⟨(hash q, ⌊now⌋), emb q, v, now⟩).length - 64 ∧
    ∀ x ∈ memSet emb hash ns q v now,
      ∀ y ∈ dictSet ns ⟨(hash q, ⌊now⌋), emb q, v, now⟩,
        y ∉ memSet emb hash ns q v now → y.ts ≤ x.ts := by
  have hlen64 : 64 ≤ (dictSet ns ⟨(hash q, ⌊now⌋), emb q, v, now⟩).length := by omega
  have hfacts := evict_filter_facts _ hnd hlen64
  have hrw := memSet_overflow_eq_filter emb hash ns q v now hnd hover
  rw [hrw]
  exact hfacts

/-- One `set` keeps the namespace within capacity and keeps keys distinct. -/
theorem memSet_preserves {V : Type} (emb : String → List ℚ) (hash : String → Int)
    (ns : List (CacheItem V)) (q : String) (v : V) (now : ℚ)
    (hnd : nodupKeys ns) (hlen : ns.length ≤ 512) :
    nodupKeys (memSet emb hash ns q v now) ∧ (memSet emb hash ns q v now).length ≤ 512 := by
  have hnd' : nodupKeys (dictSet ns ⟨(hash q, ⌊now⌋), emb q, v, now⟩) :=
    nodupKeys_dictSet _ hnd
  have hlen' : (dictSet ns ⟨(hash q, ⌊now⌋), emb q, v, now⟩).length ≤ 513 := by
    rw [dictSet_length]
    split <;> omega
  by_cases hover : 512 < (dictSet ns ⟨(hash q, ⌊now⌋), emb q, v, now⟩).length
  · have hfacts := memSet_overflow_facts emb hash ns q v now hnd' hover
    have hfil := memSet_overflow_eq_filter emb hash ns q v now hnd' hover
    constructor
    · rw [hfil]
      exact nodupKeys_filter _ hnd'
    · omega
  · have : memSet emb hash ns q v now = dictSet ns ⟨(hash q, ⌊now⌋), emb q, v, now⟩ := by
      unfold memSet
      rw [if_neg hover]
    rw [this]
    exact ⟨hnd', by omega⟩

theorem memSetMany_invariant {V : Type} (emb : String → List ℚ) (hash : String → Int) :
    ∀ (ops : List (String × V × ℚ)) (ns : List (CacheItem V)),
      nodupKeys ns → ns.length ≤ 512 →
      nodupKeys (memSetMany emb hash ops ns) ∧ (memSetMany emb hash ops ns).length ≤ 512 := by
  intro ops
  induction ops with
  | nil => intro ns h1 h2; exact ⟨h1, h2⟩
  | cons op rest ih =>
    intro ns h1 h2
    have step := memSet_preserves emb hash ns op.1 op.2.1 op.2.2 h1 h2
    exact ih _ step.1 step.2

/-- A sequence of `RedisSemanticCache.set` operations
(query, value, time) applied in order to one namespace. -/
def redisSetMany {V : Type} (emb : String → List ℚ) (hash : String → Int)
    (ops : List (String × V × Int)) (st : RedisNs V) : RedisNs V :=
  ops.foldl (fun acc op => redisSet emb hash acc op.1 op.2.1 op.2.2) st

/-- Unfolding of the key-set update performed by `redisSet`. -/
theorem redisSet_keys_eq {V : Type} (emb : String → List ℚ) (hash : String → Int)
    (st : RedisNs V) (q : String) (v : V) (now : Int) :
    (redisSet emb hash st q v now).keys =
      if (((hash q).natAbs, now) : Nat × Int) ∈ st.keys then st.keys
      else st.keys ++ [((hash q).natAbs, now)] := rfl

/-- The Redis `set` never removes keys: the previous key set is a
prefix of the new one. -/
theorem redisSet_keys_grow {V : Type} (emb : String → List ℚ) (hash : String → Int)
    (st : RedisNs V) (q : String) (v : V) (now : Int) :
    ∃ t, (redisSet emb hash st q v now).keys = st.keys ++ t := by
  unfold redisSet
  by_cases h : ((hash q).natAbs, now) ∈ st.keys
  · exact ⟨[], by simp [h]⟩
  · exact ⟨[(((hash q).natAbs), now)], by simp [h]⟩

/-- Claim C8, amended. For the in-memory backend: starting from an empty
namespace, after any sequence of `set` operations the namespace holds at
most 512 entries; when an insertion overflows the cap the eviction is a
single bulk removal of exactly the 64 oldest-by-timestamp entries (every
evicted entry is at least as old as every survivor).  The Redis backend,
by contrast, performs no eviction at all — its key set only ever grows —
so the capacity bound does *not* hold for every backend (see the
counterexample). -/
theorem C8_capacity_and_bulk_eviction (V : Type) (emb : String → List ℚ)
    (hash : String → Int) :
    (∀ ops : List (String × V × ℚ), (memSetMany emb hash ops []).length ≤ 512) ∧
    (∀ (ns : List (CacheItem V)) (q : String) (v : V) (now : ℚ),
      nodupKeys ns →
      512 < (dictSet ns ⟨(hash q, ⌊now⌋), emb q, v, now⟩).length →
      (memSet emb hash ns q v now).length =
        (dictSet ns ⟨(hash q, ⌊now⌋), emb q, v, now⟩).length - 64 ∧
      ∀ x ∈ memSet emb hash ns q v now,
        ∀ y ∈ dictSet ns ⟨(hash q, ⌊now⌋), emb q, v, now⟩,
          y ∉ memSet emb hash ns q v now → y.ts ≤ x.ts) ∧
    (∀ (st : RedisNs V) (q : String) (v : V) (now : Int),
      ∃ t, (redisSet emb hash st q v now).keys = st.keys ++ t) := by
  refine ⟨?_, ?_, fun st q v now => redisSet_keys_grow emb hash st q v now⟩
  · intro ops
    exact (memSetMany_invariant emb hash ops [] (by simp [nodupKeys, keysOf]) (by simp)).2
  · intro ns q v now hnd hover
    exact memSet_overflow_facts emb hash ns q v now (nodupKeys_dictSet _ hnd) hover

/-- A full 512-entry namespace with distinct keys, used by the C8 witness. -/
def ns512 : List (CacheItem Nat) :=
  (List.range 512).map fun i : Nat => ⟨((i : Int), 0), [], 0, (i : ℚ)⟩

theorem ns512_nodup : nodupKeys ns512 := by
  unfold nodupKeys keysOf ns512
  rw [List.map_map]
  apply List.Nodup.map _ (List.nodup_range 512)
  intro i j hij
  have h1 : (((i : Int), (0 : Int)) : Int × Int) = ((j : Int), 0) := hij
  have h2 : (i : Int) = (j : Int) := congrArg Prod.fst h1
  exact_mod_cast h2

theorem ns512_fresh_key :
    ¬ (ns512.any fun x => x.key = ((hashZero "a", ⌊(600:ℚ)⌋) : Int × Int)) = true := by
  rw [List.any_eq_true]
  rintro ⟨x, hx, hk⟩
  unfold ns512 at hx
  obtain ⟨i, hi, rfl⟩ := List.mem_map.mp hx
  simp only [decide_eq_true_eq] at hk
  have h2 : (0 : Int) = ⌊(600:ℚ)⌋ := congrArg Prod.snd hk
  norm_num at h2

theorem ns512_dictSet_length :
    (dictSet ns512 ⟨(hashZero "a", ⌊(600:ℚ)⌋), embTwo "a", 42, 600⟩).length = 513 := by
  rw [dictSet_length, if_neg ns512_fresh_key]
  unfold ns512
  simp

/-- Witness for C8: inserting into a full (512-entry, distinct-key)
namespace evicts in bulk down to 449 entries; one Redis `set` on an empty
namespace only appends to the key set. -/
theorem C8_capacity_and_bulk_eviction_witness :
    (memSet embTwo hashZero ns512 "a" 42 600).length = 449 ∧
    (∃ t, (redisSet embTwo hashZero (⟨[], []⟩ : RedisNs Nat) "a" 42 0).keys = [] ++ t) := by
  constructor
  · have h := ((C8_capacity_and_bulk_eviction Nat embTwo hashZero).2.1 ns512 "a" 42 600
      ns512_nodup (by rw [ns512_dictSet_length]; omega)).1
    rw [h, ns512_dictSet_length]
  · exact (C8_capacity_and_bulk_eviction Nat embTwo hashZero).2.2 ⟨[], []⟩ "a" 42 0

/-- The op sequence of the C8 counterexample: `n` Redis `set` calls with
the same query at successive integer timestamps. -/
def redisOps (n : Nat) : List (String × Nat × Int) :=
  (List.range n).map fun i : Nat => ("q", 0, (i : Int))

theorem redisSetMany_keys_const_query (n : Nat) :
    (redisSetMany embTwo hashZero (redisOps n) ⟨[], []⟩).keys =
      (List.range n).map fun i : Nat => ((0 : Nat), (i : Int)) := by
  induction n with
  | zero => rfl
  | succ m ih =>
    unfold redisOps at ih ⊢
    rw [List.range_succ, List.map_append, List.map_append]
    unfold redisSetMany at ih ⊢
    rw [List.foldl_append]
    simp only [List.map_cons, List.map_nil, List.foldl_cons, List.foldl_nil]
    have hfresh : (((hashZero "q").natAbs, (m : Int)) : Nat × Int) ∉
        (List.range m).map fun i : Nat => ((0 : Nat), (i : Int)) := by
      intro hmem
      obtain ⟨i, hi, hik⟩ := List.mem_map.mp hmem
      have h2 : (i : Int) = (m : Int) := congrArg Prod.snd hik
      have h3 : i = m := Int.natCast_inj.mp h2
      rw [h3] at hi
      exact absurd (List.mem_range.mp hi) (lt_irrefl m)
    rw [redisSet_keys_eq, ih, if_neg hfresh]
    simp [hashZero]

/-- Counterexample to claim C8. The capacity bound does not hold for every
backend: 513 Redis `set` operations on one namespace leave 513 stored
entries, exceeding the 512-entry cap, because `RedisSemanticCache.set`
performs no eviction. -/
theorem C8_counterexample_redis_unbounded :
    (redisSetMany embTwo hashZero (redisOps 513) ⟨[], []⟩).keys.length = 513 ∧
    512 < (redisSetMany embTwo hashZero (redisOps 513) ⟨[], []⟩).keys.length := by
  have h := redisSetMany_keys_const_query 513
  rw [h, List.length_map, List.length_range]
  omega

/-! ## Conversation memory (`app/core/memory.py`) — C10

`_append` (lines 73–85) strips the content and silently drops empty
messages; `append_user` (87–94) skips a message whose trimmed content
matches the immediately preceding message when that message is a user
message; `append_assistant_if_new` (96–107) returns `False` without
appending when the content is falsy or the last message is an assistant
message with the same trimmed content.  The fallback list-of-dicts
history is modelled; LangChain's `ChatMessageHistory` branch stores the
same (role, content) sequence. -/

/-- Message roles: the code stores the strings `"user"`/`"assistant"`. -/
inductive Role where
  | user
  | assistant
deriving DecidableEq, Repr

/-- One stored history entry `{"role": ..., "content": ...}`. -/
structure ChatMsg where
  role : Role
  content : String
deriving DecidableEq, Repr

/-- Model of `ConversationMemory._append`: strip, drop if empty, else append. -/
def memAppend (h : List ChatMsg) (r : Role) (c : String) : List ChatMsg :=
  if pyStrip c = "" then h else h ++ [⟨r, pyStrip c⟩]

/-- Model of `ConversationMemory.append_user`: skip falsy content; skip when the
last message is a user message with identical trimmed content. -/
def appendUser (h : List ChatMsg) (c : String) : List ChatMsg :=
  if c = "" then h
  else
    match h.getLast? with
    | some m =>
      if m.role = .user ∧ pyStrip m.content = pyStrip c then h
      else memAppend h .user c
    | none => memAppend h .user c

/-- Model of `ConversationMemory.append_assistant_if_new`: returns whether the
message was (nominally) appended, plus the new history. -/
def appendAssistantIfNew (h : List ChatMsg) (c : String) : Bool × List ChatMsg :=
  if c = "" then (false, h)
  else
    match h.getLast? with
    | some m =>
      if m.role = .assistant ∧ pyStrip m.content = pyStrip c then (false, h)
      else (true, memAppend h .assistant c)
    | none => (true, memAppend h .assistant c)

/-- One call against the per-thread history. -/
inductive MemOp where
  | user (c : String)
  | assistant (c : String)

/-- Run a sequence of calls against an initially empty thread history. -/
def runMemOps (ops : List MemOp) : List ChatMsg :=
  ops.foldl
    (fun h op =>
      match op with
      | .user c => appendUser h c
      | .assistant c => (appendAssistantIfNew h c).2)
    []

/-- No two consecutive messages share both role and trimmed content. -/
def NoAdjacentDup (h : List ChatMsg) : Prop :=
  h.Chain' fun a b => ¬(a.role = b.role ∧ pyStrip a.content = pyStrip b.content)

/-- Strengthened history invariant: adjacent-distinct, and every stored
content is its own trim and non-empty. -/
def GoodHistory (h : List ChatMsg) : Prop :=
  NoAdjacentDup h ∧ ∀ m ∈ h, m.content = pyStrip m.content ∧ m.content ≠ ""

theorem goodHistory_nil : GoodHistory [] :=
  ⟨List.chain'_nil, fun m hm => absurd hm (List.not_mem_nil m)⟩

/-- Appending one message whose (role, trim) differs from the last entry
preserves the invariant. -/
theorem goodHistory_append {h : List ChatMsg} (r : Role) (c : String)
    (hg : GoodHistory h)
    (hlast : ∀ m, h.getLast? = some m →
      ¬(m.role = r ∧ pyStrip m.content = pyStrip (pyStrip c))) :
    GoodHistory (memAppend h r c) := by
  unfold memAppend
  by_cases hc : pyStrip c = ""
  · rw [if_pos hc]
    exact hg
  · rw [if_neg hc]
    constructor
    · unfold NoAdjacentDup
      rw [List.chain'_append]
      refine ⟨hg.1, List.chain'_singleton _, ?_⟩
      intro x hx y hy
      simp only [List.head?_cons, Option.mem_def, Option.some.injEq] at hy
      subst hy
      exact hlast x hx
    · intro m hm
      rcases List.mem_append.mp hm with hm1 | hm2
      · exact hg.2 m hm1
      · simp only [List.mem_singleton] at hm2
        subst hm2
        exact ⟨(pyStrip_idem c).symm, hc⟩

theorem appendUser_good {h : List ChatMsg} (c : String) (hg : GoodHistory h) :
    GoodHistory (appendUser h c) := by
  unfold appendUser
  by_cases hc : c = ""
  · rw [if_pos hc]; exact hg
  · rw [if_neg hc]
    cases hlast : h.getLast? with
    | none =>
      apply goodHistory_append _ _ hg
      intro m hm
      rw [hlast] at hm
      exact absurd hm (by simp)
    | some m =>
      dsimp only
      by_cases hdup : m.role = Role.user ∧ pyStrip m.content = pyStrip c
      · rw [if_pos hdup]; exact hg
      · rw [if_neg hdup]
        apply goodHistory_append _ _ hg
        intro m2 hm2
        rw [hlast] at hm2
        injection hm2 with hm2
        subst hm2
        rw [pyStrip_idem]
        exact hdup

theorem appendAssistant_good {h : List ChatMsg} (c : String) (hg : GoodHistory h) :
    GoodHistory (appendAssistantIfNew h c).2 := by
  unfold appendAssistantIfNew
  by_cases hc : c = ""
  · rw [if_pos hc]; exact hg
  · rw [if_neg hc]
    cases hlast : h.getLast? with
    | none =>
      apply goodHistory_append _ _ hg
      intro m hm
      rw [hlast] at hm
      exact absurd hm (by simp)
    | some m =>
      dsimp only
      by_cases hdup : m.role = Role.assistant ∧ pyStrip m.content = pyStrip c
      · rw [if_pos hdup]; exact hg
      · rw [if_neg hdup]
        apply goodHistory_append _ _ hg
        intro m2 hm2
        rw [hlast] at hm2
        injection hm2 with hm2
        subst hm2
        rw [pyStrip_idem]
        exact hdup

theorem runMemOps_good (ops : List MemOp) : GoodHistory (runMemOps ops) := by
  suffices hgen : ∀ (l : List MemOp) (h : List ChatMsg), GoodHistory h →
      GoodHistory (l.foldl
        (fun h op =>
          match op with
          | MemOp.user c => appendUser h c
          | MemOp.assistant c => (appendAssistantIfNew h c).2)
        h) by
    exact hgen ops [] goodHistory_nil
  intro l
  induction l with
  | nil => intro h hg; exact hg
  | cons op rest ih =>
    intro h hg
    cases op with
    | user c => exact ih _ (appendUser_good c hg)
    | assistant c => exact ih _ (appendAssistant_good c hg)

/-- Claim C10, amended. After any sequence of `append_user` /
`append_assistant_if_new` calls the stored history never holds two
consecutive messages with the same role and the same trimmed content;
`append_user` leaves the history unchanged when the immediately preceding
message is a user message with identical trimmed content; and
`append_assistant_if_new` returns `False` with the history unchanged
exactly when *the content is the empty string or* the last message is an
assistant message with identical trimmed content.  (The original claim
omitted the empty-content case of the "exactly when" — see the
counterexample.) -/
theorem C10_history_dedup_invariant :
    (∀ ops : List MemOp, NoAdjacentDup (runMemOps ops)) ∧
    (∀ (h : List ChatMsg) (c : String) (m : ChatMsg),
      h.getLast? = some m → m.role = .user → pyStrip m.content = pyStrip c →
      appendUser h c = h) ∧
    (∀ (h : List ChatMsg) (c : String),
      ((appendAssistantIfNew h c).1 = false ∧ (appendAssistantIfNew h c).2 = h) ↔
        (c = "" ∨ ∃ m, h.getLast? = some m ∧ m.role = .assistant ∧
          pyStrip m.content = pyStrip c)) := by
  refine ⟨fun ops => (runMemOps_good ops).1, ?_, ?_⟩
  · intro h c m hlast hrole htrim
    unfold appendUser
    by_cases hc : c = ""
    · rw [if_pos hc]
    · rw [if_neg hc, hlast]
      dsimp only
      rw [if_pos ⟨hrole, htrim⟩]
  · intro h c
    constructor
    · rintro ⟨hfalse, hsame⟩
      by_cases hc : c = ""
      · exact Or.inl hc
      · right
        unfold appendAssistantIfNew at hfalse
        rw [if_neg hc] at hfalse
        cases hlast : h.getLast? with
        | none =>
          rw [hlast] at hfalse
          dsimp only at hfalse
          exact absurd hfalse (by simp)
        | some m =>
          rw [hlast] at hfalse
          dsimp only at hfalse
          by_cases hdup : m.role = Role.assistant ∧ pyStrip m.content = pyStrip c
          · exact ⟨m, rfl, hdup.1, hdup.2⟩
          · rw [if_neg hdup] at hfalse
            exact absurd hfalse (by simp)
    · rintro (hc | ⟨m, hlast, hrole, htrim⟩)
      · subst hc
        exact ⟨rfl, rfl⟩
      · unfold appendAssistantIfNew
        by_cases hc : c = ""
        · rw [if_pos hc]; exact ⟨rfl, rfl⟩
        · rw [if_neg hc, hlast]
          dsimp only
          rw [if_pos ⟨hrole, htrim⟩]
          exact ⟨rfl, rfl⟩

/-- Witness for C10 at concrete inputs: a user/assistant/user alternation
keeps the invariant; `append_user` skips an immediate duplicate; a
duplicate assistant append reports `False` and leaves the history
unchanged. -/
theorem C10_history_dedup_invariant_witness :
    NoAdjacentDup (runMemOps [MemOp.user "hi", MemOp.assistant "yo", MemOp.user "hi"]) ∧
    appendUser [⟨Role.user, "hi"⟩] "hi" = [⟨Role.user, "hi"⟩] ∧
    ((appendAssistantIfNew [⟨Role.assistant, "yo"⟩] "yo").1 = false ∧
      (appendAssistantIfNew [⟨Role.assistant, "yo"⟩] "yo").2 = [⟨Role.assistant, "yo"⟩]) := by
  refine ⟨C10_history_dedup_invariant.1 _, ?_, ?_⟩
  · exact C10_history_dedup_invariant.2.1 [⟨Role.user, "hi"⟩] "hi" ⟨Role.user, "hi"⟩
      rfl rfl rfl
  · exact (C10_history_dedup_invariant.2.2 [⟨Role.assistant, "yo"⟩] "yo").mpr
      (Or.inr ⟨⟨Role.assistant, "yo"⟩, rfl, rfl, rfl⟩)

/-- Counterexample to claim C10. The "exactly when" of the original claim fails
at empty content: on an empty history, `append_assistant_if_new("")`
returns `False` and leaves the history unchanged although there is no
preceding assistant message at all. -/
theorem C10_counterexample_empty_content :
    ((appendAssistantIfNew [] "").1 = false ∧ (appendAssistantIfNew [] "").2 = []) ∧
    ¬∃ m : ChatMsg, ([] : List ChatMsg).getLast? = some m ∧ m.role = .assistant ∧
      pyStrip m.content = pyStrip "" := by
  refine ⟨⟨rfl, rfl⟩, ?_⟩
  rintro ⟨m, hm, -, -⟩
  exact absurd hm (by simp)

/-! ## The streaming bridge (`app/api/explain.py`) — C2, C4, C5, C6

The paragraph-emission pipeline of `event_stream`.  Python's
`text.split("\\n\\n")` / `p.split("\\n")` are modelled by structural
splitters on the character list (so concrete runs kernel-evaluate), and
`"\\n".join` by `joinNl`. -/

/-- Python `s.split("\\n")`: split at every newline, keeping empty parts. -/
def splitNl : List Char → List (List Char)
  | [] => [[]]
  | c :: cs =>
    if c = '\n' then [] :: splitNl cs
    else
      match splitNl cs with
      | r :: rs => (c :: r) :: rs
      | [] => [[c]]

/-- Python `s.split("\\n\\n")`: split at every non-overlapping double
newline, scanning left to right. -/
def splitNl2 : List Char → List (List Char)
  | [] => [[]]
  | [c] => [[c]]
  | c1 :: c2 :: cs =>
    if c1 = '\n' ∧ c2 = '\n' then [] :: splitNl2 cs
    else
      match splitNl2 (c2 :: cs) with
      | r :: rs => (c1 :: r) :: rs
      | [] => [[c1]]

/-- The paragraphs of a response text: `text.split("\\n\\n")`. -/
def splitParas (text : String) : List String :=
  (splitNl2 text.data).map fun l => (⟨l⟩ : String)

/-- The lines of a paragraph: `p.split("\\n")`. -/
def splitLines (s : String) : List String :=
  (splitNl s.data).map fun l => (⟨l⟩ : String)

/-- Python `"\\n".join(lines)`. -/
def joinNl : List String → String
  | [] => ""
  | [s] => s
  | s :: rest => s ++ "\n" ++ joinNl rest

/-- Python `str.rstrip()`, modelled character-wise. -/
def pyRstrip (s : String) : String := ⟨s.data.rdropWhile pySpace⟩

/-- The token alphabet of `_too_similar`: the regex class `[a-z0-9]+`. -/
def isAlnumLower (c : Char) : Bool :=
  ('a' ≤ c ∧ c ≤ 'z') ∨ ('0' ≤ c ∧ c ≤ '9')

/-- Maximal runs of characters satisfying `p`, left to right: the model of
`re.findall(r"[a-z0-9]+", s)`. -/
def tokenRuns (p : Char → Bool) (l : List Char) : List (List Char) :=
  let r := l.foldr
    (fun c (acc : List Char × List (List Char)) =>
      if p c then (c :: acc.1, acc.2)
      else ([], if acc.1 = [] then acc.2 else acc.1 :: acc.2))
    ([], [])
  if r.1 = [] then r.2 else r.1 :: r.2

/-- The token set of `_too_similar` (source lines 202–213):
`set(re.findall(r"[a-z0-9]+", s.lower()))`, as a deduplicated list. -/
def tokenSet (s : String) : List String :=
  ((tokenRuns isAlnumLower (pyLower s).data).map fun l => (⟨l⟩ : String)).dedup

/-- The Jaccard similarity computed by `_too_similar`:
`len(ta & tb) / len(ta | tb)` (0 when the union is empty). -/
def jaccardQ (a b : String) : ℚ :=
  let ta := tokenSet a
  let tb := tokenSet b
  let inter := (ta.filter fun t => t ∈ tb).length
  let union := (ta ++ tb.filter fun t => t ∉ ta).length
  if union = 0 then 0 else (inter : ℚ) / (union : ℚ)

/-- Model of `_too_similar(a, b)`: `False` when either token set is empty, else
`sim >= 0.85` (the float threshold modelled as the exact rational). -/
def tooSimilar (a b : String) : Bool :=
  if (tokenSet a).isEmpty || (tokenSet b).isEmpty then false
  else decide ((85 : ℚ) / 100 ≤ jaccardQ a b)

/-- The per-paragraph line dedup (source lines 260–272): keep blank lines,
keep the first occurrence of each trimmed line, drop repeats. -/
def dedupLines (lines : List String) : List String :=
  (lines.foldl
    (fun (acc : List String × List String) ln =>
      let key := pyStrip ln
      if key = "" then (acc.1 ++ [ln], acc.2)
      else if key ∈ acc.2 then acc
      else (acc.1 ++ [ln], acc.2 ++ [key]))
    ([], [])).1

/-- The cleaned fragment derived from a raw paragraph: strip, split into
lines, rstrip each, dedup repeated lines, rejoin, strip. -/
def cleanPara (para : String) : String :=
  pyStrip (joinNl (dedupLines ((splitLines (pyStrip para)).map pyRstrip)))

/-- Mutable state of the emission loop: the exact-match set `seen_paras`,
the similarity window `prior_paras`, and the emitted fragments in order. -/
structure EmitState where
  seen : List String
  prior : List String
  out : List String
deriving DecidableEq, Repr

/-- One iteration of the paragraph loop with the near-duplicate filter
(the `synthesis` streaming blocks and the chat error-fallback block):
skip blank paragraphs; skip exact matches of `seen_paras`; skip fragments
too similar to a previously emitted fragment; otherwise emit. -/
def emitParaStep (st : EmitState) (para : String) : EmitState :=
  if pyStrip para = "" then st
  else if cleanPara para = "" ∨ cleanPara para ∈ st.seen then st
  else if st.prior.any fun q => tooSimilar (cleanPara para) q then st
  else ⟨st.seen ++ [cleanPara para], st.prior ++ [cleanPara para],
    st.out ++ [cleanPara para]⟩

/-- The same loop without the similarity filter (the post-loop fallback
blocks at source lines 420–441 and 379–400 keep the line dedup and the
exact-match check but perform no `_too_similar` test). -/
def emitParaStepNoSim (st : EmitState) (para : String) : EmitState :=
  if pyStrip para = "" then st
  else if cleanPara para = "" ∨ cleanPara para ∈ st.seen then st
  else ⟨st.seen ++ [cleanPara para], st.prior, st.out ++ [cleanPara para]⟩

/-- The bare loop of the final non-chat fallback (source lines 454–460):
no line dedup, exact-match check only. -/
def emitParaStepBare (st : EmitState) (para : String) : EmitState :=
  if pyStrip para = "" ∨ pyStrip para ∈ st.seen then st
  else ⟨st.seen ++ [pyStrip para], st.prior, st.out ++ [pyStrip para]⟩

/-- Run the similarity-filtering paragraph loop over a whole response
text, seeding `seen_paras` with `seed` (prior turns' paragraphs in chat
mode) and an empty `prior_paras` window. -/
def emitParas (seed : List String) (text : String) : EmitState :=
  (splitParas text).foldl emitParaStep ⟨seed, [], []⟩

/-- Invariant of the emission loop: `seen_paras` is the seed plus the
emitted output, `prior_paras` is exactly the emitted output, no emitted
fragment is similar to an earlier one, and output is duplicate-free and
disjoint from the seed. -/
def EmitInv (seed : List String) (st : EmitState) : Prop :=
  st.seen = seed ++ st.out ∧
  st.prior = st.out ∧
  List.Pairwise (fun a b => tooSimilar b a = false) st.out ∧
  st.out.Nodup ∧
  ∀ x ∈ st.out, x ∉ seed

theorem emitInv_init (seed : List String) : EmitInv seed ⟨seed, [], []⟩ := by
  refine ⟨by simp, rfl, List.Pairwise.nil, List.nodup_nil, ?_⟩
  intro x hx
  exact absurd hx (List.not_mem_nil x)

theorem emitParaStep_extends (st : EmitState) (para : String) :
    ∃ t, (emitParaStep st para).out = st.out ++ t := by
  unfold emitParaStep
  split
  · exact ⟨[], by simp⟩
  · split
    · exact ⟨[], by simp⟩
    · split
      · exact ⟨[], by simp⟩
      · exact ⟨[cleanPara para], rfl⟩

theorem foldl_emitParaStep_extends :
    ∀ (l : List String) (st : EmitState),
      ∃ t, (l.foldl emitParaStep st).out = st.out ++ t := by
  intro l
  induction l with
  | nil => intro st; exact ⟨[], by simp⟩
  | cons p rest ih =>
    intro st
    obtain ⟨t1, h1⟩ := emitParaStep_extends st p
    obtain ⟨t2, h2⟩ := ih (emitParaStep st p)
    exact ⟨t1 ++ t2, by rw [List.foldl_cons, h2, h1, List.append_assoc]⟩

theorem emitInv_step {seed : List String} {st : EmitState} (para : String)
    (h : EmitInv seed st) : EmitInv seed (emitParaStep st para) := by
  obtain ⟨h1, h2, h3, h4, h5⟩ := h
  unfold emitParaStep
  split
  · exact ⟨h1, h2, h3, h4, h5⟩
  · split
    · exact ⟨h1, h2, h3, h4, h5⟩
    · split
      · exact ⟨h1, h2, h3, h4, h5⟩
      · rename_i hne hseen hsim
        have hnotseen : cleanPara para ∉ st.seen := by
          intro hmem
          exact hseen (Or.inr hmem)
        have hnotout : cleanPara para ∉ st.out := fun hm =>
          hnotseen (h1 ▸ List.mem_append_right seed hm)
        have hnotseed : cleanPara para ∉ seed := fun hm =>
          hnotseen (h1 ▸ List.mem_append_left st.out hm)
        have hnosim : ∀ q ∈ st.out, tooSimilar (cleanPara para) q = false := by
          intro q hq
          by_contra hcon
          apply hsim
          rw [List.any_eq_true]
          exact ⟨q, h2 ▸ hq, by simpa using hcon⟩
        refine ⟨?_, ?_, ?_, ?_, ?_⟩
        · simp only [h1, List.append_assoc]
        · simp only [h2]
        · rw [List.pairwise_append]
          refine ⟨h3, List.pairwise_singleton _ _, ?_⟩
          intro a ha b hb
          simp only [List.mem_singleton] at hb
          subst hb
          exact hnosim a ha
        · rw [List.nodup_append]
          exact ⟨h4, List.nodup_singleton _, by
            intro a ha hb
            simp only [List.mem_singleton] at hb
            subst hb
            exact hnotout ha⟩
        · intro x hx
          rcases List.mem_append.mp hx with hx1 | hx2
          · exact h5 x hx1
          · simp only [List.mem_singleton] at hx2
            subst hx2
            exact hnotseed

theorem foldl_emitInv {seed : List String} :
    ∀ (l : List String) (st : EmitState), EmitInv seed st →
      EmitInv seed (l.foldl emitParaStep st) := by
  intro l
  induction l with
  | nil => intro st h; exact h
  | cons p rest ih => intro st h; exact ih _ (emitInv_step p h)

/-- A blank paragraph cleans to the empty fragment. -/
theorem cleanPara_of_strip_empty {para : String} (h : pyStrip para = "") :
    cleanPara para = "" := by
  unfold cleanPara
  rw [h]
  decide

/-- Per-step trichotomy: a paragraph with a non-empty cleaned fragment is
either emitted, an exact duplicate of the seed, an exact duplicate of an
earlier emitted fragment, or suppressed as similar to an emitted one. -/
theorem emitParaStep_trichotomy {seed : List String} {st : EmitState} {para : String}
    (h : EmitInv seed st) (hne : cleanPara para ≠ "") :
    (emitParaStep st para).out = st.out ++ [cleanPara para] ∨
    cleanPara para ∈ seed ∨ cleanPara para ∈ st.out ∨
    ∃ q ∈ st.out, tooSimilar (cleanPara para) q = true := by
  obtain ⟨h1, h2, -, -, -⟩ := h
  unfold emitParaStep
  by_cases hblank : pyStrip para = ""
  · exact absurd (cleanPara_of_strip_empty hblank) hne
  · rw [if_neg hblank]
    by_cases hskip : cleanPara para = "" ∨ cleanPara para ∈ st.seen
    · rcases hskip with hc | hc
      · exact absurd hc hne
      · rw [h1] at hc
        rcases List.mem_append.mp hc with hcs | hco
        · exact Or.inr (Or.inl hcs)
        · exact Or.inr (Or.inr (Or.inl hco))
    · rw [if_neg hskip]
      by_cases hsim : st.prior.any fun q => tooSimilar (cleanPara para) q
      · rw [if_pos hsim]
        rw [List.any_eq_true] at hsim
        obtain ⟨q, hq, hsq⟩ := hsim
        exact Or.inr (Or.inr (Or.inr ⟨q, h2 ▸ hq, hsq⟩))
      · rw [if_neg hsim]
        exact Or.inl rfl

theorem emit_complete {seed : List String} :
    ∀ (l : List String) (st : EmitState), EmitInv seed st →
      ∀ para ∈ l, cleanPara para ≠ "" →
        cleanPara para ∈ (l.foldl emitParaStep st).out ∨ cleanPara para ∈ seed ∨
        ∃ q ∈ (l.foldl emitParaStep st).out, tooSimilar (cleanPara para) q = true := by
  intro l
  induction l with
  | nil =>
    intro st _ para hmem
    exact absurd hmem (List.not_mem_nil para)
  | cons p rest ih =>
    intro st hinv para hmem hne
    obtain ⟨t, hext⟩ := foldl_emitParaStep_extends rest (emitParaStep st p)
    rcases List.mem_cons.mp hmem with rfl | htail
    · rcases emitParaStep_trichotomy hinv hne with hemit | hseed | hout | ⟨q, hq, hsq⟩
      · left
        rw [List.foldl_cons, hext, hemit]
        exact List.mem_append_left t (List.mem_append_right st.out (List.mem_singleton_self _))
      · exact Or.inr (Or.inl hseed)
      · left
        rw [List.foldl_cons, hext]
        obtain ⟨t0, h0⟩ := emitParaStep_extends st para
        rw [h0, List.append_assoc]
        exact List.mem_append_left _ hout
      · right; right
        refine ⟨q, ?_, hsq⟩
        rw [List.foldl_cons, hext]
        obtain ⟨t0, h0⟩ := emitParaStep_extends st para
        rw [h0, List.append_assoc]
        exact List.mem_append_left _ hq
    · exact ih (emitParaStep st p) (emitInv_step p hinv) para htail hne

/-- Claim C2, amended. Within one streamed response: no emitted fragment has
token-set Jaccard similarity at or above 0.85 with any earlier emitted
fragment of the *same response* (fragments at or above the threshold are
suppressed); the emitted fragments are pairwise distinct and never repeat a
paragraph recorded from an earlier turn (the seeded `seen_paras`); and a
paragraph whose cleaned fragment is non-empty is emitted *unless* it
exactly matches a seeded or previously emitted fragment or is
similarity-suppressed by a previously emitted fragment.  (The original
claim fails in the exact-duplicate case: a repeated fragment whose token
set is empty has similarity 0 yet is suppressed — see the counterexample.
The similarity window is the current response, not the whole thread:
cross-turn dedup is exact-match only, via the seed.) -/
theorem C2_jaccard_dedup_stream (seed : List String) (text : String) :
    List.Pairwise (fun a b => tooSimilar b a = false) (emitParas seed text).out ∧
    (emitParas seed text).out.Nodup ∧
    (∀ x ∈ (emitParas seed text).out, x ∉ seed) ∧
    (∀ para ∈ splitParas text, cleanPara para ≠ "" →
      cleanPara para ∈ (emitParas seed text).out ∨ cleanPara para ∈ seed ∨
      ∃ q ∈ (emitParas seed text).out, tooSimilar (cleanPara para) q = true) := by
  have hinv := foldl_emitInv (splitParas text) ⟨seed, [], []⟩ (emitInv_init seed)
  exact ⟨hinv.2.2.1, hinv.2.2.2.1, hinv.2.2.2.2,
    fun para hmem hne => emit_complete (splitParas text) ⟨seed, [], []⟩
      (emitInv_init seed) para hmem hne⟩

/-- Witness for C2 on a concrete response of two dissimilar paragraphs
(the second has an empty token set, so the similarity filter passes it):
both are emitted, pairwise dissimilar, and the completeness branch puts
the first paragraph in the output. -/
theorem C2_jaccard_dedup_stream_witness :
    (emitParas [] "alpha one\n\n???").out = ["alpha one", "???"] ∧
    List.Pairwise (fun a b => tooSimilar b a = false)
      (emitParas [] "alpha one\n\n???").out ∧
    ("alpha one" ∈ (emitParas [] "alpha one\n\n???").out ∨
      ("alpha one" : String) ∈ ([] : List String) ∨
      ∃ q ∈ (emitParas [] "alpha one\n\n???").out,
        tooSimilar "alpha one" q = true) := by
  refine ⟨by decide, (C2_jaccard_dedup_stream [] "alpha one\n\n???").1, ?_⟩
  have h := (C2_jaccard_dedup_stream [] "alpha one\n\n???").2.2.2
    "alpha one" (by decide) (by decide)
  simpa using h

/-- Counterexample to claim C2. The claim's "fragments below the threshold are
emitted" fails: in the response `"!!!\\n\\n!!!"` the second paragraph has
Jaccard similarity 0 (both token sets are empty) with the only previously
emitted fragment — far below 0.85 — yet it is suppressed by the
exact-match filter: only one fragment is emitted. -/
theorem C2_counterexample_exact_duplicate :
    splitParas "!!!\n\n!!!" = ["!!!", "!!!"] ∧
    (emitParas [] "!!!\n\n!!!").out = ["!!!"] ∧
    jaccardQ "!!!" "!!!" = 0 ∧
    tooSimilar "!!!" "!!!" = false := by
  refine ⟨by decide, by decide, by decide, by decide⟩

/-! ### The SSE bridge proper (C4, C5, C6)

A pure model of the direct (non-Celery) `event_stream` generator of
`/explain` (source lines 172–470).  Emissions are structured
(`progress` markers, cosmetic step notes, text fragments) rather than raw
SSE strings; the cosmetic note strings (emoji log lines) are represented
by tags since no claim depends on their byte content.  The graph event
source is an abstract list of events; `errorAfter = some k` means the
source raised after delivering `k` events ("errors or closes
mid-stream"); `invokeReport` is the `final_report` field of the result of
the synchronous `graph_app.invoke` fallback (`""` when absent).
`sha256` of the trimmed text is modelled by the injective, never-empty
tag `hashText`.  Memory writes performed while streaming
(`append_assistant_if_new`, `add_seen_paragraphs`) emit nothing and are
not re-read within one execution, so they are not tracked. -/

/-- Cosmetic step-log lines of the bridge. -/
inductive NoteTag where
  | expertsReasoning
  | runningTools
  | routerDone
  | staticDone
  | securityDone
  | expertsMerged
deriving DecidableEq, Repr

/-- One SSE emission. -/
inductive Emit where
  | progress (n : Int)
  | note (t : NoteTag)
  | text (s : String)
deriving DecidableEq, Repr

/-- Graph event types the bridge dispatches on. -/
inductive EType where
  | onNodeStart
  | onNodeEnd
  | onEnd
  | other
deriving DecidableEq, Repr

/-- One graph event as the bridge reads it: its type, node name, and the
`progress` / `final_report` fields of `data["output"]`. -/
structure Event where
  etype : EType
  name : String
  progress : Option Int
  finalReport : Option String
deriving DecidableEq, Repr

/-- The conversation-memory values the bridge reads for one thread. -/
structure MemView where
  lastAssistant : Option String
  lastMsg : Option (String × String)
  lastHash : Option String
  seenSeed : List String
deriving DecidableEq, Repr

/-- Model of `_hash_text` (sha256 of the trimmed text), modelled injectively and
never empty. -/
def hashText (t : String) : String := "#" ++ pyStrip t

/-- Mutable state of the bridge generator. -/
structure BridgeState where
  sentReport : Bool
  seen : List String
  prior : List String
  lastHash : Option String
  out : List Emit
deriving DecidableEq, Repr

def chatDupMsgStream : String := "(no new insights; ask a new question or modify code)"

def chatDupMsgFallback : String := "(no new insights; try a different question)"

def noChangesMsg : String := "(no changes since last review)"

/-- Run the similarity-filtering paragraph loop from the bridge state and
append its fragments to the stream. -/
def bridgeEmitFull (st : BridgeState) (t : String) : BridgeState :=
  let r := (splitParas t).foldl emitParaStep ⟨st.seen, st.prior, []⟩
  { st with seen := r.seen, prior := r.prior, out := st.out ++ r.out.map Emit.text }

/-- Run the paragraph loop without the similarity filter (post-loop
fallback blocks). -/
def bridgeEmitNoSim (st : BridgeState) (t : String) : BridgeState :=
  let r := (splitParas t).foldl emitParaStepNoSim ⟨st.seen, st.prior, []⟩
  { st with seen := r.seen, prior := r.prior, out := st.out ++ r.out.map Emit.text }

/-- Run the bare paragraph loop (final non-chat fallback, source lines
454–460). -/
def bridgeEmitBare (st : BridgeState) (t : String) : BridgeState :=
  let r := (splitParas t).foldl emitParaStepBare ⟨st.seen, st.prior, []⟩
  { st with seen := r.seen, prior := r.prior, out := st.out ++ r.out.map Emit.text }

/-- The `synthesis` branch of the streaming loop (source lines 243–322):
in chat mode substitute the placeholder when the text equals the last
assistant turn after trimming, else stream the deduplicated paragraphs;
in analyze mode compare report hashes the same way. -/
def synthesisStep (chatMode : Bool) (mem : MemView) (st : BridgeState)
    (t : String) : BridgeState :=
  if chatMode then
    match mem.lastAssistant with
    | some la =>
      if la ≠ "" ∧ pyStrip la = pyStrip t then
        { st with out := st.out ++ [Emit.text chatDupMsgStream], sentReport := true }
      else { bridgeEmitFull st t with sentReport := true }
    | none => { bridgeEmitFull st t with sentReport := true }
  else
    if st.lastHash = some (hashText t) then
      { st with
          lastHash := some (hashText t)
          out := st.out ++ [Emit.text noChangesMsg]
          sentReport := true }
    else { bridgeEmitFull { st with lastHash := some (hashText t) } t with
      sentReport := true }

/-- Dispatch of one graph event (source lines 216–327). -/
def processEvent (chatMode : Bool) (mem : MemView) (st : BridgeState)
    (e : Event) : BridgeState :=
  let st1 :=
    if e.etype = EType.onNodeStart then
      if e.name = "experts_model" then
        { st with out := st.out ++ [Emit.note NoteTag.expertsReasoning] }
      else if e.name = "experts_tools" then
        { st with out := st.out ++ [Emit.note NoteTag.runningTools] }
      else st
    else st
  if e.etype = EType.onNodeEnd then
    let st2 :=
      match e.progress with
      | some n => { st1 with out := st1.out ++ [Emit.progress n] }
      | none => st1
    if e.name = "router" then { st2 with out := st2.out ++ [Emit.note NoteTag.routerDone] }
    else if e.name = "static_analysis" then
      { st2 with out := st2.out ++ [Emit.note NoteTag.staticDone] }
    else if e.name = "security_analysis" then
      { st2 with out := st2.out ++ [Emit.note NoteTag.securityDone] }
    else if e.name = "experts_finalize" then
      { st2 with out := st2.out ++ [Emit.note NoteTag.expertsMerged] }
    else if e.name = "synthesis" ∧ ¬ st2.sentReport then
      match e.finalReport with
      | some t => if t ≠ "" then synthesisStep chatMode mem st2 t else st2
      | none => st2
    else st2
  else if e.etype = EType.onEnd then
    { st1 with out := st1.out ++ [Emit.progress 100] }
  else st1

/-- The error fallback (the `except` branch, source lines 328–402): one
synchronous `invoke`, then the report rendered through the dedup pipeline
(with the similarity filter in chat mode, without it in analyze mode), a
placeholder when it duplicates the previous response, and the terminal
marker. -/
def errorFallback (chatMode : Bool) (mem : MemView) (st : BridgeState)
    (invokeReport : String) : BridgeState :=
  let stBody :=
    if invokeReport ≠ "" then
      if chatMode then
        match mem.lastAssistant with
        | some la =>
          if la ≠ "" ∧ pyStrip la = pyStrip invokeReport then
            { st with out := st.out ++ [Emit.text chatDupMsgFallback] }
          else bridgeEmitFull st invokeReport
        | none => bridgeEmitFull st invokeReport
      else
        if st.lastHash = some (hashText invokeReport) then
          { st with
              lastHash := some (hashText invokeReport)
              out := st.out ++ [Emit.text noChangesMsg] }
        else bridgeEmitNoSim { st with lastHash := some (hashText invokeReport) }
          invokeReport
    else st
  { stBody with out := stBody.out ++ [Emit.progress 100] }

/-- The post-loop fallback when streaming completed without having
produced the report (`if not sent_report`, source lines 404–461). -/
def tailFallback (chatMode : Bool) (mem : MemView) (st : BridgeState)
    (invokeReport : String) : BridgeState :=
  let stBody :=
    if invokeReport ≠ "" then
      if chatMode then
        match mem.lastMsg with
        | some rc =>
          if rc.1 = "assistant" ∧ pyStrip rc.2 = pyStrip invokeReport then
            { st with out := st.out ++ [Emit.text chatDupMsgFallback] }
          else bridgeEmitNoSim st invokeReport
        | none => bridgeEmitNoSim st invokeReport
      else
        if st.lastHash = some (hashText invokeReport) then
          { st with
              lastHash := some (hashText invokeReport)
              out := st.out ++ [Emit.text noChangesMsg] }
        else bridgeEmitBare { st with lastHash := some (hashText invokeReport) }
          invokeReport
    else st
  { stBody with out := stBody.out ++ [Emit.progress 100] }

/-- Initial bridge state: the early `:::progress: 5` hint has been
emitted, `seen_paras` is seeded from memory in chat mode. -/
def initBridge (chatMode : Bool) (mem : MemView) : BridgeState :=
  { sentReport := false,
    seen := if chatMode then mem.seenSeed else [],
    prior := [],
    lastHash := mem.lastHash,
    out := [Emit.progress 5] }

/-- The state after the streaming loop consumed the first `k` events. -/
def runPrefix (chatMode : Bool) (mem : MemView) (events : List Event)
    (k : Nat) : BridgeState :=
  (events.take k).foldl (processEvent chatMode mem) (initBridge chatMode mem)

/-- Result of one full bridge execution: emissions plus the number of
synchronous `invoke` calls. -/
structure BridgeResult where
  out : List Emit
  invokes : Nat
deriving DecidableEq, Repr

/-- The direct-streaming `event_stream` generator, end to end. -/
def eventStream (chatMode : Bool) (mem : MemView) (events : List Event)
    (errorAfter : Option Nat) (invokeReport : String) : BridgeResult :=
  match errorAfter with
  | some k =>
    { out := (errorFallback chatMode mem (runPrefix chatMode mem events k)
        invokeReport).out,
      invokes := 1 }
  | none =>
    let st := events.foldl (processEvent chatMode mem) (initBridge chatMode mem)
    if st.sentReport then { out := st.out, invokes := 0 }
    else { out := (tailFallback chatMode mem st invokeReport).out, invokes := 1 }

theorem errorFallback_getLast (chatMode : Bool) (mem : MemView) (st : BridgeState)
    (r : String) :
    (errorFallback chatMode mem st r).out.getLast? = some (Emit.progress 100) := by
  unfold errorFallback
  exact List.getLast?_concat _

theorem tailFallback_getLast (chatMode : Bool) (mem : MemView) (st : BridgeState)
    (r : String) :
    (tailFallback chatMode mem st r).out.getLast? = some (Emit.progress 100) := by
  unfold tailFallback
  exact List.getLast?_concat _

/-- Claim C6, amended. The emitted sequence ends with the terminal
`progress=100` marker whenever the bridge took a fallback path: always
when the event source errors or closes mid-stream before the report was
delivered (`errorAfter = some k`), and always when streaming completed
without having produced the final report.  The guarantee does *not* cover
the path where streaming already delivered the report and the source
closes without an `on_end` event — see the counterexample. -/
theorem C6_terminal_progress_marker (chatMode : Bool) (mem : MemView)
    (events : List Event) (errorAfter : Option Nat) (invokeReport : String) :
    (∀ k, errorAfter = some k →
      (eventStream chatMode mem events errorAfter invokeReport).invokes = 1 ∧
      (eventStream chatMode mem events errorAfter invokeReport).out.getLast? =
        some (Emit.progress 100)) ∧
    ((eventStream chatMode mem events errorAfter invokeReport).invokes = 1 →
      (eventStream chatMode mem events errorAfter invokeReport).out.getLast? =
        some (Emit.progress 100)) := by
  unfold eventStream
  cases errorAfter with
  | some k =>
    refine ⟨fun k2 hk2 => ⟨rfl, errorFallback_getLast _ _ _ _⟩, fun _ => ?_⟩
    exact errorFallback_getLast _ _ _ _
  | none =>
    refine ⟨fun k2 hk2 => absurd hk2 (by simp), ?_⟩
    dsimp only
    split
    · intro h
      exact absurd h (by simp)
    · intro _
      exact tailFallback_getLast _ _ _ _

/-- Trivial memory view: fresh thread, nothing stored. -/
def memTrivial : MemView := ⟨none, none, none, []⟩

/-- A `synthesis` node-end event carrying a final report. -/
def synthEvent (t : String) : Event := ⟨EType.onNodeEnd, "synthesis", none, some t⟩

/-- Witness for C6: an errored stream and a stream that closed without a
report both end with the terminal marker. -/
theorem C6_terminal_progress_marker_witness :
    (eventStream false memTrivial [] (some 0) "A").out.getLast? =
      some (Emit.progress 100) ∧
    (eventStream false memTrivial [] none "A").out.getLast? =
      some (Emit.progress 100) := by
  constructor
  · exact ((C6_terminal_progress_marker false memTrivial [] (some 0) "A").1 0 rfl).2
  · exact (C6_terminal_progress_marker false memTrivial [] none "A").2 (by decide)

/-- Counterexample to claim C6. When streaming delivers the final report and
the event source then closes without an `on_end` event, the stream ends
with the last text fragment, not with a `progress=100` marker: the
post-loop marker at source line 461 sits inside `if not sent_report`. -/
theorem C6_counterexample_no_terminal_marker :
    (eventStream false memTrivial [synthEvent "Hello"] none "").out =
      [Emit.progress 5, Emit.text "Hello"] ∧
    (eventStream false memTrivial [synthEvent "Hello"] none "").out.getLast? ≠
      some (Emit.progress 100) := by
  exact ⟨by decide, by decide⟩

/-- Claim C5, amended. The bridge performs at most one synchronous
fallback `invoke` per execution: exactly one when the event source errors
or closes mid-stream (and also when streaming completes without having
produced the report), and none when streaming already delivered it.  The
fallback's final report is emitted *not* as a single final fragment but
as a sequence of deduplicated paragraph fragments followed by the
terminal marker (shown here for the analyze-mode error path with a fresh
report hash; duplicate reports reduce to a single placeholder
fragment). -/
theorem C5_single_fallback_invoke (chatMode : Bool) (mem : MemView)
    (events : List Event) (errorAfter : Option Nat) (invokeReport : String) :
    ((eventStream chatMode mem events errorAfter invokeReport).invokes ≤ 1) ∧
    (∀ k, errorAfter = some k →
      (eventStream chatMode mem events errorAfter invokeReport).invokes = 1 ∧
      (chatMode = false → invokeReport ≠ "" →
        ¬ (runPrefix chatMode mem events k).lastHash = some (hashText invokeReport) →
        (eventStream chatMode mem events errorAfter invokeReport).out =
          (runPrefix chatMode mem events k).out ++
          ((splitParas invokeReport).foldl emitParaStepNoSim
            ⟨(runPrefix chatMode mem events k).seen,
             (runPrefix chatMode mem events k).prior, []⟩).out.map Emit.text ++
          [Emit.progress 100])) ∧
    (errorAfter = none →
      (events.foldl (processEvent chatMode mem) (initBridge chatMode mem)).sentReport =
        true →
      (eventStream chatMode mem events errorAfter invokeReport).invokes = 0) := by
  refine ⟨?_, ?_, ?_⟩
  · unfold eventStream
    cases errorAfter with
    | some k => exact le_refl 1
    | none =>
      dsimp only
      split
      · exact Nat.zero_le 1
      · exact le_refl 1
  · intro k hk
    subst hk
    refine ⟨rfl, ?_⟩
    intro hchat hrep hhash
    subst hchat
    show (errorFallback false mem (runPrefix false mem events k) invokeReport).out = _
    unfold errorFallback
    rw [if_pos hrep, if_neg (show ¬ (false = true) from by simp)]
    dsimp only
    rw [if_neg hhash]
    unfold bridgeEmitNoSim
    dsimp only
  · intro hnone hsent
    subst hnone
    unfold eventStream
    dsimp only
    rw [if_pos hsent]

/-- Witness for C5: an immediately-errored stream performs exactly one
fallback invoke and renders the report followed by the marker. -/
theorem C5_single_fallback_invoke_witness :
    (eventStream false memTrivial [] (some 0) "A").invokes = 1 ∧
    (eventStream false memTrivial [] (some 0) "A").out =
      [Emit.progress 5, Emit.text "A", Emit.progress 100] := by
  have h := (C5_single_fallback_invoke false memTrivial [] (some 0) "A").2.1 0 rfl
  refine ⟨h.1, ?_⟩
  have h2 := h.2 rfl (by decide) (by decide)
  rw [h2]
  decide

/-- Counterexample to claim C5. The fallback does not emit the report as a
single final fragment: a two-paragraph report is emitted as two separate
fragments (followed by the terminal marker), and the full report text
never appears as one fragment. -/
theorem C5_counterexample_multi_fragment :
    (eventStream false memTrivial [] (some 0) "A\n\nB").out =
      [Emit.progress 5, Emit.text "A", Emit.text "B", Emit.progress 100] ∧
    Emit.text "A\n\nB" ∉ (eventStream false memTrivial [] (some 0) "A\n\nB").out := by
  exact ⟨by decide, by decide⟩

/-- Claim C4, amended. In chat mode, when the synthesized text equals the
most recent stored assistant turn after trimming, the bridge substitutes
the single short "no new insights" placeholder fragment for the text;
otherwise the text is emitted through the normal deduplicating paragraph
pipeline (which may drop repeated or seen paragraphs, so the "full text"
is not re-emitted verbatim — see the counterexample). -/
theorem C4_no_new_insights_placeholder (mem : MemView) (st : BridgeState) (t : String) :
    (∀ la, mem.lastAssistant = some la → la ≠ "" → pyStrip la = pyStrip t →
      (synthesisStep true mem st t).out = st.out ++ [Emit.text chatDupMsgStream] ∧
      (synthesisStep true mem st t).sentReport = true) ∧
    (∀ la, mem.lastAssistant = some la → ¬ (la ≠ "" ∧ pyStrip la = pyStrip t) →
      (synthesisStep true mem st t).out =
        st.out ++ ((splitParas t).foldl emitParaStep
          ⟨st.seen, st.prior, []⟩).out.map Emit.text) ∧
    (mem.lastAssistant = none →
      (synthesisStep true mem st t).out =
        st.out ++ ((splitParas t).foldl emitParaStep
          ⟨st.seen, st.prior, []⟩).out.map Emit.text) := by
  refine ⟨?_, ?_, ?_⟩
  · intro la hla hne heq
    unfold synthesisStep
    rw [if_pos rfl, hla]
    dsimp only
    rw [if_pos ⟨hne, heq⟩]
    exact ⟨rfl, rfl⟩
  · intro la hla hnot
    unfold synthesisStep
    rw [if_pos rfl, hla]
    dsimp only
    rw [if_neg hnot]
    unfold bridgeEmitFull
    rfl
  · intro hla
    unfold synthesisStep
    rw [if_pos rfl, hla]
    unfold bridgeEmitFull
    rfl

/-- Witness for C4: a response equal (after trimming) to the stored
assistant turn collapses to the placeholder fragment. -/
theorem C4_no_new_insights_placeholder_witness :
    (synthesisStep true ⟨some "Hi", none, none, []⟩
      (initBridge true ⟨some "Hi", none, none, []⟩) "Hi ").out =
      [Emit.progress 5, Emit.text chatDupMsgStream] := by
  have h := ((C4_no_new_insights_placeholder ⟨some "Hi", none, none, []⟩
    (initBridge true ⟨some "Hi", none, none, []⟩) "Hi ").1 "Hi" rfl (by decide)
    (by decide)).1
  rw [h]
  decide

/-- Counterexample to claim C4. In the non-matching case the claim's "the full
text is emitted" fails: a chat response of two identical paragraphs is
emitted as a single fragment (the duplicate paragraph is suppressed by the
exact-match filter), and the full text never appears. -/
theorem C4_counterexample_full_text_not_reemitted :
    (synthesisStep true memTrivial (initBridge true memTrivial) "x\n\nx").out =
      [Emit.progress 5, Emit.text "x"] ∧
    Emit.text "x\n\nx" ∉
      (synthesisStep true memTrivial (initBridge true memTrivial) "x\n\nx").out := by
  exact ⟨by decide, by decide⟩

/-! ## The collector node (`graph/nodes/collector.py`) — C7

Report dicts are modelled as typed structures; a falsy report (absent key
or empty dict) is `none`.  Note the expert default analysis
`{"critical": [], "important": [], "recommendations": []}` is a *truthy*
dict, hence `some defaultSecurityAnalysis`.  Numeric `str()` renderings
that no claim depends on are carried as pre-rendered strings
(`QIssue.score`); the `:.2f` / `:.1f` float formats are modelled by
rational fixed-point rendering. -/

/-- One entry of `security_report["vulnerabilities"]`. -/
structure Vuln where
  line : Int
  vtype : String
  severity : String
deriving DecidableEq, Repr

/-- One expert security issue (`critical` / `important` entries). -/
structure SecIssue where
  line : Int
  issue : String
  fix : String
deriving DecidableEq, Repr

/-- Model of `security_expert_analysis`. -/
structure SecurityExpertAnalysis where
  critical : List SecIssue
  important : List SecIssue
  recommendations : List String
deriving DecidableEq, Repr

/-- The default (empty) expert analysis returned on every error path of
`security_expert_node`. -/
def defaultSecurityAnalysis : SecurityExpertAnalysis := ⟨[], [], []⟩

/-- Model of `quality_report["metrics"]`. -/
structure QMetrics where
  avg : ℚ
  worst : ℚ
  count : Int
deriving DecidableEq, Repr

/-- One entry of `quality_report["issues"]`; `score` carries `str(score)`. -/
structure QIssue where
  line : Int
  metric : String
  score : String
  suggestion : String
deriving DecidableEq, Repr

/-- Model of `quality_report`. -/
structure QualityReport where
  metrics : Option QMetrics
  issues : List QIssue
deriving DecidableEq, Repr

/-- One API endpoint found by the API expert. -/
structure Endpoint where
  method : String
  path : String
  line : Int
  issues : List String
deriving DecidableEq, Repr

/-- One API issue. -/
structure ApiIssue where
  severity : String
  description : String
  fix : String
deriving DecidableEq, Repr

/-- Model of `api_expert_analysis`. -/
structure ApiExpertAnalysis where
  endpoints : List Endpoint
  issues : List ApiIssue
  improvements : List String
deriving DecidableEq, Repr

/-- One database query found by the DB expert. -/
structure DbQuery where
  location : String
  qtype : String
  issues : List String
deriving DecidableEq, Repr

/-- One database risk. -/
structure DbRisk where
  severity : String
  description : String
  fix : String
deriving DecidableEq, Repr

/-- Model of `db_expert_analysis`. -/
structure DbExpertAnalysis where
  queries : List DbQuery
  risks : List DbRisk
  optimizations : List String
deriving DecidableEq, Repr

/-- Fixed-point decimal rendering of a rational, modelling Python's
`:.2f` / `:.1f` float formats (rounding slop of binary floats ignored;
negative inputs do not occur in the formatted reports). -/
def fmtFixed (prec : Nat) (q : ℚ) : String :=
  let scaled : Int := ⌊q * (10 : ℚ) ^ prec + 1 / 2⌋
  let n := scaled.natAbs
  let sign := if scaled < 0 then "-" else ""
  let ip := n / 10 ^ prec
  let fp := n % 10 ^ prec
  let fpStr := toString fp
  let pad : String := ⟨List.replicate (prec - fpStr.length) '0'⟩
  if prec = 0 then sign ++ toString ip
  else sign ++ toString ip ++ "." ++ pad ++ fpStr

/-- Model of `_format_security_section` (source lines 15–57). -/
def formatSecuritySection (toolReport : Option (List Vuln))
    (expert : Option SecurityExpertAnalysis) : String :=
  let toolPart :=
    match toolReport with
    | some vulns =>
      if vulns.isEmpty then ""
      else
        "**Tool Findings:** " ++ toString vulns.length ++ " vulnerabilities detected\n\n"
        ++ String.join ((vulns.take 5).map fun v =>
            "- Line " ++ toString v.line ++ ": " ++ v.vtype ++ " [" ++ v.severity ++ "]\n")
        ++ "\n"
    | none => ""
  let expertPart :=
    match expert with
    | some ex =>
      (if ex.critical.isEmpty then ""
       else
        "**Critical Issues (P0):** " ++ toString ex.critical.length ++ "\n\n"
        ++ String.join ((ex.critical.take 3).map fun i =>
            "- Line " ++ toString i.line ++ ": " ++ i.issue ++ "\n"
            ++ "  - Fix: " ++ i.fix ++ "\n")
        ++ "\n")
      ++ (if ex.important.isEmpty then ""
       else
        "**Important Issues (P1):** " ++ toString ex.important.length ++ "\n\n"
        ++ String.join ((ex.important.take 3).map fun i =>
            "- Line " ++ toString i.line ++ ": " ++ i.issue ++ "\n")
        ++ "\n")
      ++ (if ex.recommendations.isEmpty then ""
       else
        "**Recommendations:**\n\n"
        ++ String.join ((ex.recommendations.take 5).map fun r => "- " ++ r ++ "\n")
        ++ "\n")
    | none => ""
  "## Security Analysis\n" ++ toolPart ++ expertPart

/-- Model of `_format_quality_section` (source lines 60–82). -/
def formatQualitySection (toolReport : Option QualityReport) : String :=
  "## Code Quality\n" ++
  match toolReport with
  | some q =>
    "**Complexity Metrics:**\n"
    ++ "- Average: " ++ fmtFixed 2 ((q.metrics.map fun m => m.avg).getD 0) ++ "\n"
    ++ "- Worst: " ++ fmtFixed 1 ((q.metrics.map fun m => m.worst).getD 0) ++ "\n"
    ++ "- Functions analyzed: " ++ toString ((q.metrics.map fun m => m.count).getD 0)
    ++ "\n\n"
    ++ (if q.issues.isEmpty then ""
        else
          "**Issues Found:** " ++ toString q.issues.length ++ "\n\n"
          ++ String.join ((q.issues.take 5).map fun i =>
              "- Line " ++ toString i.line ++ ": " ++ i.metric ++ " = " ++ i.score ++ "\n"
              ++ "  - " ++ i.suggestion ++ "\n")
          ++ "\n")
  | none => ""

/-- Model of `_format_api_section` (source lines 85–122). -/
def formatApiSection (expert : Option ApiExpertAnalysis) : String :=
  match expert with
  | none => ""
  | some ex =>
    if ex.endpoints.isEmpty ∧ ex.issues.isEmpty then ""
    else
      "## API Analysis\n"
      ++ (if ex.endpoints.isEmpty then ""
          else
            "**Endpoints Found:** " ++ toString ex.endpoints.length ++ "\n\n"
            ++ String.join ((ex.endpoints.take 5).map fun ep =>
                "- " ++ ep.method ++ " " ++ ep.path ++ " (Line " ++ toString ep.line ++ ")\n"
                ++ (if ep.issues.isEmpty then ""
                    else String.join (ep.issues.map fun iss => "  - ⚠️ " ++ iss ++ "\n")))
            ++ "\n")
      ++ (if ex.issues.isEmpty then ""
          else
            "**Issues:** " ++ toString ex.issues.length ++ "\n\n"
            ++ String.join ((ex.issues.take 5).map fun i =>
                "- [" ++ i.severity ++ "] " ++ i.description ++ "\n"
                ++ (if i.fix = "" then "" else "  - Fix: " ++ i.fix ++ "\n"))
            ++ "\n")
      ++ (if ex.improvements.isEmpty then ""
          else
            "**Improvements:**\n\n"
            ++ String.join ((ex.improvements.take 5).map fun im => "- " ++ im ++ "\n")
            ++ "\n")

/-- Model of `_format_db_section` (source lines 125–162). -/
def formatDbSection (expert : Option DbExpertAnalysis) : String :=
  match expert with
  | none => ""
  | some ex =>
    if ex.queries.isEmpty ∧ ex.risks.isEmpty then ""
    else
      "## Database Analysis\n"
      ++ (if ex.queries.isEmpty then ""
          else
            "**Queries Found:** " ++ toString ex.queries.length ++ "\n\n"
            ++ String.join ((ex.queries.take 5).map fun qu =>
                "- " ++ qu.location ++ ": " ++ qu.qtype ++ "\n"
                ++ (if qu.issues.isEmpty then ""
                    else String.join (qu.issues.map fun iss => "  - ⚠️ " ++ iss ++ "\n")))
            ++ "\n")
      ++ (if ex.risks.isEmpty then ""
          else
            "**Risks:** " ++ toString ex.risks.length ++ "\n\n"
            ++ String.join ((ex.risks.take 5).map fun r =>
                "- [" ++ r.severity ++ "] " ++ r.description ++ "\n"
                ++ (if r.fix = "" then "" else "  - Fix: " ++ r.fix ++ "\n"))
            ++ "\n")
      ++ (if ex.optimizations.isEmpty then ""
          else
            "**Optimizations:**\n\n"
            ++ String.join ((ex.optimizations.take 5).map fun o => "- " ++ o ++ "\n")
            ++ "\n")

/-- The slice of the graph state `collector_node` reads; a branch that
failed or never ran contributes `none`. -/
structure CollectorState where
  securityReport : Option (List Vuln)
  qualityReport : Option QualityReport
  securityExpert : Option SecurityExpertAnalysis
  apiExpert : Option ApiExpertAnalysis
  dbExpert : Option DbExpertAnalysis
deriving DecidableEq, Repr

/-- Model of `collector_node` (source lines 165–222): the merged
`expert_summary`.  (The node also sets `progress = 80.0` and emits a
log line recording branch presence; only the log records it.) -/
def collectorSummary (st : CollectorState) : String :=
  let sec := formatSecuritySection st.securityReport st.securityExpert
  let qual := formatQualitySection st.qualityReport
  let api := formatApiSection st.apiExpert
  let db := formatDbSection st.dbExpert
  "# Expert Analysis Summary\n\n" ++ sec ++ qual
    ++ (if api = "" then "" else api)
    ++ (if db = "" then "" else db)

/-- A failed expert branch and a successful run that returned the default
empty analysis contribute identically to the security section. -/
theorem formatSecuritySection_default_eq_none (toolReport : Option (List Vuln)) :
    formatSecuritySection toolReport (some defaultSecurityAnalysis) =
      formatSecuritySection toolReport none := by
  unfold formatSecuritySection defaultSecurityAnalysis
  dsimp only
  rfl

/-- Claim C7, amended. A parallel expert branch that fails contributes no
analysis to the state; the collector still merges the surviving branches'
outputs into the summary — the quality section of a surviving quality
branch always appears — so degraded output is produced.  But the merged
output does *not* record which upstream branches failed: a failed branch
is indistinguishable in the summary from a branch that succeeded with the
default empty analysis (only the collector's log line records branch
presence).  Branch isolation itself (a raising handler aborting only its
own branch) is LangGraph engine behaviour, outside this repository's
sources; here a failed branch is modelled as an absent analysis. -/
theorem C7_collector_degraded_merge (secTool : Option (List Vuln))
    (qual : Option QualityReport) (api : Option ApiExpertAnalysis)
    (db : Option DbExpertAnalysis) :
    collectorSummary ⟨secTool, qual, none, api, db⟩ =
      collectorSummary ⟨secTool, qual, some defaultSecurityAnalysis, api, db⟩ ∧
    ∃ pre post, collectorSummary ⟨secTool, qual, none, api, db⟩ =
      pre ++ formatQualitySection qual ++ post := by
  constructor
  · unfold collectorSummary
    dsimp only
    rw [formatSecuritySection_default_eq_none]
  · refine ⟨"# Expert Analysis Summary\n\n" ++ formatSecuritySection secTool none,
      (if formatApiSection api = "" then "" else formatApiSection api)
        ++ (if formatDbSection db = "" then "" else formatDbSection db), ?_⟩
    unfold collectorSummary
    dsimp only
    rw [String.append_assoc, String.append_assoc]

/-- Concrete C7 inputs: one tool vulnerability and one quality issue. -/
def vulnC7 : Vuln := ⟨3, "sql-injection", "high"⟩

def qualC7 : QualityReport := ⟨none, [⟨7, "cyclomatic", "12", "refactor this function"⟩]⟩

/-- Counterexample to claim C7. The merged output does not record which
branches failed: with the security-expert branch failed (`none`) the
collector produces byte-for-byte the same summary as with that branch
succeeding with the default empty analysis, although the two states
differ — so no degraded-output marker distinguishes them. -/
theorem C7_counterexample_failure_not_recorded :
    collectorSummary ⟨some [vulnC7], some qualC7, none, none, none⟩ =
      collectorSummary ⟨some [vulnC7], some qualC7, some defaultSecurityAnalysis,
        none, none⟩ ∧
    (none : Option SecurityExpertAnalysis) ≠ some defaultSecurityAnalysis := by
  constructor
  · unfold collectorSummary
    dsimp only
    rw [formatSecuritySection_default_eq_none]
  · simp

end CodeReviewAgent
